import Mathlib

/-!
Verification of the settings-cache / secondary-index synchronizer and the
key-value & stream client of the `thothlib` backend toolkit.

The development shallowly embeds:
  * `lib/redisService.js`  — the KV/stream client (`setData`, `getData`,
    `delData`, `setupStreamGroup`, `publishToStream`, `readFromStreamGroup`);
  * `src/services/companyService.js` — the settings cache & index
    synchronizer (`saveSettingInRedis`, `updateIndexForChannelInRedis`,
    `getSystemSettings`, `getIdByIntegration`).

JavaScript values are modelled by `JVal` (numbers restricted to integers:
float arithmetic plays no role in any claim).  `JSON.stringify` /
`JSON.parse` are modelled by an executable encoder `jsonStringify` and a
fueled recursive-descent decoder `jsonParse`, with a proved round-trip
theorem.  The external Redis transport is modelled by an oracle stream of
per-operation behaviours (success / rejection), so every theorem quantifies
over all transport behaviours it mentions.
-/

set_option maxHeartbeats 1000000

namespace Thoth

/-- Model of a JavaScript/JSON value.  `undefined` is represented at use
sites by `Option JVal` (with `none` = undefined); numbers are restricted to
integers. -/
inductive JVal : Type where
  | jnull : JVal
  | jbool : Bool → JVal
  | jnum : Int → JVal
  | jstr : String → JVal
  | jarr : List JVal → JVal
  | jobj : List (String × JVal) → JVal

namespace JVal

/-- JavaScript truthiness of a defined value. -/
def truthy : JVal → Bool
  | jnull => false
  | jbool b => b
  | jnum n => n != 0
  | jstr s => s != ""
  | jarr _ => true
  | jobj _ => true

/-- `typeof v === 'object'` for a defined, non-null value: objects and
arrays (the `null` case is screened out by truthiness at every use site in
the source). -/
def isObjectType : JVal → Bool
  | jnull => true
  | jarr _ => true
  | jobj _ => true
  | _ => false

/-- Property access `v[key]` on a defined value; `none` is `undefined`.
Objects look the key up among their fields; arrays support numeric-string
indexing as JavaScript does; every other receiver yields `undefined`
(the source always guards the access with a truthiness-and-typeof check). -/
def index (v : JVal) (key : String) : Option JVal :=
  match v with
  | jobj fields => (fields.find? (fun p => p.1 == key)).map (fun p => p.2)
  | jarr xs =>
      if key.all Char.isDigit && key != "" then
        xs.get? key.toNat!
      else none
  | _ => none

end JVal

/-- JavaScript truthiness with `undefined` (`none`) being falsy. -/
def truthyOpt : Option JVal → Bool
  | none => false
  | some v => v.truthy

/-- The character `\x7b`. -/
def lbrace : Char := Char.ofNat 123

/-- The character `\x7d`. -/
def rbrace : Char := Char.ofNat 125

/-- Decimal digits of `n`, most significant first (the output of
`Number.prototype.toString` on a non-negative integer). -/
def natDigits (n : Nat) : List Char :=
  if _h : n < 10 then [Nat.digitChar n]
  else natDigits (n / 10) ++ [Nat.digitChar (n % 10)]
  decreasing_by
    exact Nat.div_lt_self (by omega) (by omega)

/-- Decimal rendering of an integer, as JavaScript prints it. -/
def intChars (n : Int) : List Char :=
  if n < 0 then '-' :: natDigits n.natAbs else natDigits n.natAbs

/-- JSON string escaping (quote, backslash and the common control
characters, matching what `JSON.stringify` emits for them). -/
def escChar (c : Char) : List Char :=
  if c = '"' then ['\\', '"']
  else if c = '\\' then ['\\', '\\']
  else if c = '\n' then ['\\', 'n']
  else if c = '\t' then ['\\', 't']
  else if c = '\r' then ['\\', 'r']
  else [c]

def escStr (s : List Char) : List Char :=
  s.flatMap escChar

/-- Encoded form of a JSON string literal, quotes included. -/
def encStrLit (s : String) : List Char :=
  '"' :: escStr s.data ++ ['"']

mutual

/-- `JSON.stringify`, at character-list level. -/
def encVal : JVal → List Char
  | .jnull => ['n', 'u', 'l', 'l']
  | .jbool true => ['t', 'r', 'u', 'e']
  | .jbool false => ['f', 'a', 'l', 's', 'e']
  | .jnum n => intChars n
  | .jstr s => encStrLit s
  | .jarr xs => '[' :: encItems xs ++ [']']
  | .jobj kvs => lbrace :: encFields kvs ++ [rbrace]

/-- Comma-separated encodings of array items. -/
def encItems : List JVal → List Char
  | [] => []
  | [v] => encVal v
  | v :: vs => encVal v ++ ',' :: encItems vs

/-- Comma-separated encodings of object fields. -/
def encFields : List (String × JVal) → List Char
  | [] => []
  | [(k, v)] => encStrLit k ++ ':' :: encVal v
  | (k, v) :: kvs => encStrLit k ++ ':' :: encVal v ++ ',' :: encFields kvs

end

/-- `JSON.stringify` as a string-valued function. -/
def jsonStringify (v : JVal) : String :=
  String.mk (encVal v)

mutual

/-- `String(value)` for the values the source converts this way
(scalars in `setData`, interpolation of ids and tokens into keys). -/
def jsToString : JVal → String
  | .jnull => "null"
  | .jbool true => "true"
  | .jbool false => "false"
  | .jnum n => String.mk (intChars n)
  | .jstr s => s
  | .jarr xs => jsToStringItems xs
  | .jobj _ => "[object Object]"

/-- `Array.prototype.toString`: items joined with commas. -/
def jsToStringItems : List JVal → String
  | [] => ""
  | [v] => jsToString v
  | v :: vs => jsToString v ++ "," ++ jsToStringItems vs

end

/-! ### The JSON decoder (`JSON.parse`)

A fueled recursive-descent parser over character lists.  It accepts exactly
the JSON grammar restricted to integer numerals (no fraction/exponent —
a number followed by `.`, `e` or `E` is rejected, as floats are outside
this model), with the usual whitespace tolerance. -/

def isWs (c : Char) : Bool :=
  c = ' ' || c = '\n' || c = '\t' || c = '\r'

def skipWs : List Char → List Char
  | [] => []
  | c :: cs => if isWs c then skipWs cs else c :: cs

/-- Decimal digit test, phrased on code points. -/
def isDigitChar (c : Char) : Bool :=
  48 ≤ c.toNat && c.toNat ≤ 57

/-- Numeric value of a decimal digit character. -/
def digitVal (c : Char) : Nat :=
  c.toNat - 48

/-- Longest prefix of decimal digits. -/
def takeDigits : List Char → List Char × List Char
  | [] => ([], [])
  | c :: cs =>
      if isDigitChar c then
        let (ds, rest) := takeDigits cs
        (c :: ds, rest)
      else ([], c :: cs)

/-- Value of a big-endian digit list under accumulator `acc`. -/
def digitsToNat (acc : Nat) : List Char → Nat
  | [] => acc
  | c :: cs => digitsToNat (acc * 10 + digitVal c) cs

/-- Does the list start with a character that may not directly follow a
JSON integer numeral (a digit would extend it, `.`/`e`/`E` would make it a
float, which this model rejects)? -/
def numBreak : List Char → Bool
  | [] => true
  | c :: _ => !(isDigitChar c || c = '.' || c = 'e' || c = 'E')

/-- Parse an unsigned JSON integer numeral. -/
def parseUnsigned (cs : List Char) : Option (Nat × List Char) :=
  match takeDigits cs with
  | ([], _) => none
  | (ds, rest') =>
      if ds.length > 1 ∧ ds.head? = some '0' then none
      else if numBreak rest' then some (digitsToNat 0 ds, rest')
      else none

/-- Parse a JSON integer numeral starting at a digit or `-`. -/
def parseNum (cs : List Char) : Option (JVal × List Char) :=
  match cs with
  | [] => none
  | c :: rest =>
      if c = '-' then
        match parseUnsigned rest with
        | none => none
        | some (n, rest') => some (.jnum (-(n : Int)), rest')
      else
        match parseUnsigned (c :: rest) with
        | none => none
        | some (n, rest') => some (.jnum (n : Int), rest')

/-- Unescape the character following a backslash in a string literal. -/
def unescChar (c : Char) : Option Char :=
  if c = '"' then some '"'
  else if c = '\\' then some '\\'
  else if c = '/' then some '/'
  else if c = 'n' then some '\n'
  else if c = 't' then some '\t'
  else if c = 'r' then some '\r'
  else if c = 'b' then some (Char.ofNat 8)
  else if c = 'f' then some (Char.ofNat 12)
  else none

/-- Parse the body of a string literal (the opening quote already
consumed), up to and including the closing quote. -/
def parseStrBody : List Char → Option (List Char × List Char)
  | [] => none
  | c :: rest =>
      if c = '"' then some ([], rest)
      else if c = '\\' then
        match rest with
        | [] => none
        | e :: rest' =>
            match unescChar e with
            | none => none
            | some u =>
                match parseStrBody rest' with
                | none => none
                | some (s, r) => some (u :: s, r)
      else
        match parseStrBody rest with
        | none => none
        | some (s, r) => some (c :: s, r)

/-- `expectLit lit cs` consumes the exact characters `lit` from `cs`. -/
def expectLit : List Char → List Char → Option (List Char)
  | [], cs => some cs
  | _ :: _, [] => none
  | l :: ls, c :: cs => if c = l then expectLit ls cs else none

mutual

/-- Parse one JSON value (leading whitespace allowed). -/
def parseVal : Nat → List Char → Option (JVal × List Char)
  | 0, _ => none
  | fuel + 1, cs =>
      match skipWs cs with
      | [] => none
      | c :: rest =>
          if c = 'n' then
            match expectLit ['u', 'l', 'l'] rest with
            | none => none
            | some r => some (.jnull, r)
          else if c = 't' then
            match expectLit ['r', 'u', 'e'] rest with
            | none => none
            | some r => some (.jbool true, r)
          else if c = 'f' then
            match expectLit ['a', 'l', 's', 'e'] rest with
            | none => none
            | some r => some (.jbool false, r)
          else if c = '"' then
            match parseStrBody rest with
            | none => none
            | some (s, r) => some (.jstr (String.mk s), r)
          else if c = '[' then
            match skipWs rest with
            | [] => none
            | c2 :: r2 =>
                if c2 = ']' then some (.jarr [], r2)
                else
                  match parseItems fuel (c2 :: r2) with
                  | none => none
                  | some (xs, r3) =>
                      match skipWs r3 with
                      | c4 :: r4 => if c4 = ']' then some (.jarr xs, r4) else none
                      | [] => none
          else if c = lbrace then
            match skipWs rest with
            | [] => none
            | c2 :: r2 =>
                if c2 = rbrace then some (.jobj [], r2)
                else
                  match parseFields fuel (c2 :: r2) with
                  | none => none
                  | some (kvs, r3) =>
                      match skipWs r3 with
                      | c4 :: r4 => if c4 = rbrace then some (.jobj kvs, r4) else none
                      | [] => none
          else parseNum (c :: rest)

/-- Parse a non-empty comma-separated list of values. -/
def parseItems : Nat → List Char → Option (List JVal × List Char)
  | 0, _ => none
  | fuel + 1, cs =>
      match parseVal fuel cs with
      | none => none
      | some (v, r) =>
          match skipWs r with
          | [] => some ([v], [])
          | c :: r2 =>
              if c = ',' then
                match parseItems fuel r2 with
                | none => none
                | some (vs, r3) => some (v :: vs, r3)
              else some ([v], c :: r2)

/-- Parse a non-empty comma-separated list of `"key":value` fields. -/
def parseFields : Nat → List Char → Option (List (String × JVal) × List Char)
  | 0, _ => none
  | fuel + 1, cs =>
      match skipWs cs with
      | [] => none
      | c :: rest =>
          if c = '"' then
            match parseStrBody rest with
            | none => none
            | some (k, r) =>
                match skipWs r with
                | [] => none
                | c2 :: r2 =>
                    if c2 = ':' then
                      match parseVal fuel r2 with
                      | none => none
                      | some (v, r3) =>
                          match skipWs r3 with
                          | [] => some ([(String.mk k, v)], [])
                          | c4 :: r4 =>
                              if c4 = ',' then
                                match parseFields fuel r4 with
                                | none => none
                                | some (kvs, r5) => some ((String.mk k, v) :: kvs, r5)
                              else some ([(String.mk k, v)], c4 :: r4)
                    else none
          else none

end

/-- `JSON.parse` as a partial function: `none` models a thrown
`SyntaxError`.  The fuel `3 * length + 1` dominates the recursion depth of
any successful parse (proved sufficient for every encoder output below). -/
def jsonParse (s : String) : Option JVal :=
  match parseVal (3 * s.length + 1) s.data with
  | some (v, rest) => if skipWs rest = [] then some v else none
  | none => none

/-! ### Round-trip: `jsonParse (jsonStringify v) = some v` -/

/-- Fuel measure of a value for the decoder. -/
def sizeV : JVal → Nat
  | .jnull | .jbool _ | .jnum _ | .jstr _ => 1
  | .jarr xs => 1 + sizeItems xs
  | .jobj kvs => 1 + sizeFields kvs
where
  /-- Fuel measure of an item list. -/
  sizeItems : List JVal → Nat
    | [] => 1
    | v :: vs => 1 + sizeV v + sizeItems vs
  /-- Fuel measure of a field list. -/
  sizeFields : List (String × JVal) → Nat
    | [] => 1
    | (_, v) :: kvs => 1 + sizeV v + sizeFields kvs

/-- Characters that may legitimately follow an encoded value inside a
larger encoding (or nothing at all). -/
def follow (rest : List Char) : Prop :=
  rest = [] ∨ ∃ r', rest = ',' :: r' ∨ rest = ']' :: r' ∨ rest = rbrace :: r'

/-! ### The KV / stream client (`lib/redisService.js`)

The client holds one connection (`ready` models `client.status === 'ready'`);
every raw store command consumes one behaviour from an oracle stream
(`behs`, empty stream meaning the command succeeds), so theorems about the
client quantify over all transport outcomes.  Each operation wraps its raw
command in try/catch: the `.err` branch of the oracle is the rejected
promise, and the surrounding catch converts it into the `null` sentinel. -/

/-- A JavaScript exception (`Error`), carrying its message. -/
structure JsError where
  message : String

/-- Outcome of one raw command against the external store. -/
inductive OpBeh where
  | ok
  | err (e : JsError)

/-- Client connection state, store contents and the transport oracle. -/
structure REnv where
  ready : Bool
  kv : List (String × String)
  groups : List (String × String)
  behs : List OpBeh

/-- Consume the next transport behaviour (an exhausted stream means the
command succeeds). -/
def popBeh (env : REnv) : OpBeh × REnv :=
  match env.behs with
  | [] => (OpBeh.ok, env)
  | b :: r => (b, { env with behs := r })

def containsKey (l : List (String × String)) (k : String) : Bool :=
  l.any (fun p => p.1 == k)

def kvGet (l : List (String × String)) (k : String) : Option String :=
  (l.find? (fun p => p.1 == k)).map (fun p => p.2)

def kvSet (l : List (String × String)) (k v : String) : List (String × String) :=
  l.filter (fun p => p.1 != k) ++ [(k, v)]

/-- The string Redis stores for a defined, non-null value: objects and
arrays are `JSON.stringify`ed, scalars go through `String(value)`. -/
def storeValue (v : JVal) : String :=
  if v.isObjectType then jsonStringify v else jsToString v

namespace RedisService

/-- `setData(key, value)` of `lib/redisService.js`. -/
def setData (env : REnv) (key : String) (value : Option JVal) :
    REnv × Except JsError (Option String) :=
  if !env.ready then (env, .ok none)
  else
    match value with
    | none => (env, .ok none)
    | some .jnull => (env, .ok none)
    | some v =>
        let sv := storeValue v
        let (b, env1) := popBeh env
        match b with
        | .ok => ({ env1 with kv := kvSet env1.kv key sv }, .ok (some "OK"))
        | .err _ => (env1, .ok none)

/-- `getData(key)` of `lib/redisService.js`. -/
def getData (env : REnv) (key : String) : REnv × Except JsError (Option JVal) :=
  if !env.ready then (env, .ok none)
  else
    let (b, env1) := popBeh env
    match b with
    | .err _ => (env1, .ok none)
    | .ok =>
        match kvGet env1.kv key with
        | none => (env1, .ok none)
        | some s =>
            match jsonParse s with
            | some v => (env1, .ok (some v))
            | none => (env1, .ok (some (.jstr s)))

/-- `delData(keys)` of `lib/redisService.js` (list-of-keys form). -/
def delData (env : REnv) (keys : List String) :
    REnv × Except JsError (Option Nat) :=
  if !env.ready then (env, .ok none)
  else
    let (b, env1) := popBeh env
    match b with
    | .err _ => (env1, .ok none)
    | .ok =>
        let removed := env1.kv.filter (fun p => keys.contains p.1)
        ({ env1 with kv := env1.kv.filter (fun p => !keys.contains p.1) },
         .ok (some removed.length))

/-- Does `s` contain `pat` as a substring (`String.prototype.includes`)? -/
def startsWithChars : List Char → List Char → Bool
  | p :: ps, c :: cs => p == c && startsWithChars ps cs
  | [], _ => true
  | _, _ => false

def hasInfixChars (pat : List Char) : List Char → Bool
  | [] => startsWithChars pat []
  | c :: rest => startsWithChars pat (c :: rest) || hasInfixChars pat rest

def strIncludes (s pat : String) : Bool :=
  hasInfixChars pat.data s.data

/-- `setupStreamGroup(streamKey, groupName)`: `XGROUP CREATE … MKSTREAM`;
the store rejects with a BUSYGROUP error when the group already exists, and
the catch turns exactly the BUSYGROUP message into success. -/
def setupStreamGroup (env : REnv) (streamKey groupName : String) :
    REnv × Except JsError Bool :=
  if !env.ready then (env, .ok false)
  else
    if (streamKey, groupName) ∈ env.groups then
      (env, .ok (strIncludes "BUSYGROUP Consumer Group name already exists" "BUSYGROUP"))
    else
      let (b, env1) := popBeh env
      match b with
      | .ok => ({ env1 with groups := (streamKey, groupName) :: env1.groups }, .ok true)
      | .err e => (env1, .ok (strIncludes e.message "BUSYGROUP"))

/-- Outcome of one raw `XREADGROUP` command: rejection, timeout (a nil
response) or a batch of raw messages `(id, flat field list)`. -/
inductive XReadBeh where
  | err (e : JsError)
  | timeout
  | deliver (msgs : List (String × List String))

/-- `fields.indexOf('payload')`, with JavaScript's `-1` for a miss. -/
def findIdx (x : String) : List String → Option Nat
  | [] => none
  | y :: ys => if y == x then some 0 else (findIdx x ys).map (fun i => i + 1)

/-- Parse the raw messages as the source does:
`payload = fields[fields.indexOf('payload') + 1]` then `JSON.parse`; a
missing or undecodable payload throws (caught by the caller). -/
def parseStreamMsgs : List (String × List String) → Option (List (String × JVal))
  | [] => some []
  | (id, fields) :: rest =>
      let idx := match findIdx "payload" fields with
        | some i => i + 1
        | none => 0
      match fields.get? idx with
      | none => none
      | some ps =>
          match jsonParse ps with
          | none => none
          | some v => (parseStreamMsgs rest).map (fun ms => (id, v) :: ms)

/-- `readFromStreamGroup(streamKey, groupName, consumerName, options)`;
the read outcome is supplied by the `XReadBeh` oracle. -/
def readFromStreamGroup (env : REnv) (streamKey groupName consumerName : String)
    (beh : XReadBeh) : Except JsError (Option (List (String × JVal))) :=
  if !env.ready then .ok none
  else
    match beh with
    | .err _ => .ok none
    | .timeout => .ok (some [])
    | .deliver msgs =>
        match parseStreamMsgs msgs with
        | some ms => .ok (some ms)
        | none => .ok none

end RedisService

/-! ### The settings cache & index synchronizer (`src/services/companyService.js`)

`CompanyService` receives its `redisService` by constructor injection, so
the embedding is parametric in a redis interface over an arbitrary state
type; `concreteRedis` wires in the modelled `lib/redisService.js`, while
`anyRedis` is an arbitrary injected implementation whose every call may
succeed, return the nil sentinel or throw (used to check the isolation
claims for every behaviour of the individual writes). -/

/-- The injected redis dependency: stateful `setData` / `getData` that may
also throw. -/
structure RedisIface (σ : Type) where
  set : σ → String → Option JVal → σ × Except JsError (Option String)
  get : σ → String → σ × Except JsError (Option JVal)

/-- The real client of `lib/redisService.js`. -/
def concreteRedis : RedisIface REnv where
  set := RedisService.setData
  get := RedisService.getData

/-- Per-call behaviour of an arbitrary injected redis implementation. -/
inductive DIBeh where
  | ok
  | retNull
  | throwE (e : JsError)

/-- State for the arbitrary injected implementation: store contents plus
the oracle of call behaviours (exhausted stream = success). -/
structure FEnv where
  kv : List (String × String)
  behs : List DIBeh

def popDI (env : FEnv) : DIBeh × FEnv :=
  match env.behs with
  | [] => (DIBeh.ok, env)
  | b :: r => (b, { env with behs := r })

/-- An arbitrary injected redis implementation: a successful `set` stores
the standard encoding, a failed one returns `null`, and a call may throw. -/
def anyRedis : RedisIface FEnv where
  set env key value :=
    let (b, env1) := popDI env
    match b with
    | .ok =>
        match value with
        | none => (env1, .ok none)
        | some .jnull => (env1, .ok none)
        | some v => ({ env1 with kv := kvSet env1.kv key (storeValue v) }, .ok (some "OK"))
    | .retNull => (env1, .ok none)
    | .throwE e => (env1, .error e)
  get env key :=
    let (b, env1) := popDI env
    match b with
    | .ok =>
        match kvGet env1.kv key with
        | none => (env1, .ok none)
        | some s =>
            match jsonParse s with
            | some v => (env1, .ok (some v))
            | none => (env1, .ok (some (.jstr s)))
    | .retNull => (env1, .ok none)
    | .throwE e => (env1, .error e)

/-- One row of the static `#defaultMetaIndexers` table. -/
structure Indexer where
  platformName : String
  tokenPath : List String
  redisKeyPrefix : String

/-- The three configured indexers (platform names from
`constants.chatSources`, prefixes from `constants.redisKeyPrefix`). -/
def defaultMetaIndexers : List Indexer :=
  [ ⟨"whatsapp", ["meta_integrations", "whatsapp", "phoneNumberId"], "wapPhoneNumberId"⟩,
    ⟨"messenger", ["meta_integrations", "messenger", "pageId"], "msnPageId"⟩,
    ⟨"instagram", ["meta_integrations", "instagram", "instagramBusinessAccountId"],
      "igmBusinessAccountId"⟩ ]

/-- Property access on a possibly-undefined value. -/
def optIndex : Option JVal → String → Option JVal
  | none, _ => none
  | some v, k => v.index k

/-- `#getDeepValue(obj, pathArray)`: reduce over the path, stepping only
through truthy objects whose property is defined. -/
def getDeepValue (obj : JVal) (pathArray : List String) : Option JVal :=
  pathArray.foldl
    (fun currentObject key =>
      match currentObject with
      | some v =>
          if v.truthy && v.isObjectType && (v.index key).isSome then v.index key
          else none
      | none => none)
    (some obj)

/-- The Primary Entry key `company_settings:{companyId}`. -/
def mainSettingsKey (companyId : String) : String :=
  "company_settings:" ++ companyId

/-- The Secondary Entry key `{redisKeyPrefix}:{tokenValue}`. -/
def secondaryKey (cfg : Indexer) (tokenValue : JVal) : String :=
  cfg.redisKeyPrefix ++ ":" ++ jsToString tokenValue

/-- `#saveMainCompanySettings`. -/
def saveMainCompanySettings {σ : Type} (R : RedisIface σ) (s : σ)
    (companyId systemSettings : JVal) : σ × Except JsError Unit :=
  match R.set s (mainSettingsKey (jsToString companyId)) (some systemSettings) with
  | (s1, .error e) => (s1, .error e)
  | (s1, .ok _) => (s1, .ok ())

/-- `#processAndSaveSecondaryIndex`. -/
def processAndSaveSecondaryIndex {σ : Type} (R : RedisIface σ) (s : σ)
    (companyId systemSettings : JVal) (indexerConfig : Indexer) :
    σ × Except JsError Unit :=
  match getDeepValue systemSettings indexerConfig.tokenPath with
  | some tokenValue =>
      if tokenValue.truthy then
        match R.set s (secondaryKey indexerConfig tokenValue) (some companyId) with
        | (s1, .error e) => (s1, .error e)
        | (s1, .ok _) => (s1, .ok ())
      else (s, .ok ())
  | none => (s, .ok ())

/-- Is a TenantRecord valid for the synchronizer
(`!company || !company._id || !company.system_settings` negated)? -/
def validCompany (company : Option JVal) : Bool :=
  truthyOpt company && truthyOpt (optIndex company "_id")
    && truthyOpt (optIndex company "system_settings")

/-- `saveSettingInRedis(company)` — write the Primary Entry, then each
Secondary Entry independently, each indexer wrapped in its own try/catch
whose failures are logged and dropped. -/
def saveSettingInRedis {σ : Type} (R : RedisIface σ) (s : σ)
    (company : Option JVal) : σ × Except JsError Unit :=
  if !validCompany company then
    (s, .error ⟨"Objeto `company` inválido o faltan `_id` o `system_settings`."⟩)
  else
    let companyId := (optIndex company "_id").getD .jnull
    let systemSettings := (optIndex company "system_settings").getD .jnull
    match saveMainCompanySettings R s companyId systemSettings with
    | (s1, .error e) => (s1, .error e)
    | (s1, .ok _) =>
        let s2 := defaultMetaIndexers.foldl
          (fun acc cfg => (processAndSaveSecondaryIndex R acc companyId systemSettings cfg).1)
          s1
        (s2, .ok ())

/-- `updateIndexForChannelInRedis(company, channel)`. -/
def updateIndexForChannelInRedis {σ : Type} (R : RedisIface σ) (s : σ)
    (company : Option JVal) (channel : String) : σ × Except JsError Unit :=
  if !validCompany company then
    (s, .error ⟨"Objeto `company` inválido."⟩)
  else if channel = "" then
    (s, .error ⟨"El parámetro `channel` es obligatorio."⟩)
  else
    match defaultMetaIndexers.find? (fun i => i.platformName == channel) with
    | none =>
        (s, .error ⟨"Configuración de indexador no encontrada para el canal: " ++ channel⟩)
    | some indexerConfig =>
        let companyId := (optIndex company "_id").getD .jnull
        let systemSettings := (optIndex company "system_settings").getD .jnull
        match processAndSaveSecondaryIndex R s companyId systemSettings indexerConfig with
        | (s1, .error e) => (s1, .error e)
        | (s1, .ok _) => (s1, .ok ())

/-- A document of the external company repository. -/
structure CompanyDoc where
  id : String
  name : Option JVal
  system_settings : Option JVal
  active : Bool

/-- The repository, with a counter of performed reads. -/
structure Db where
  companies : List CompanyDoc
  reads : Nat

/-- `Company.findOne({ _id: companyId, active: true }, …)`. -/
def findOneActiveById (db : Db) (companyId : String) : Db × Option CompanyDoc :=
  ({ db with reads := db.reads + 1 },
   db.companies.find? (fun c => c.id == companyId && c.active))

/-- Walk a dotted Mongo path through nested documents. -/
def mongoNested : Option JVal → List String → Option JVal
  | v, [] => v
  | some (.jobj fields), k :: ks =>
      mongoNested ((fields.find? (fun p => p.1 == k)).map (fun p => p.2)) ks
  | _, _ :: _ => none

/-- `Company.findOne({ active: true, ['system_settings.' + path]: attribute }, …)`. -/
def findOneActiveByPath (db : Db) (path : List String) (attrVal : String) :
    Db × Option CompanyDoc :=
  ({ db with reads := db.reads + 1 },
   db.companies.find? (fun c =>
     c.active &&
       match mongoNested c.system_settings path with
       | some (.jstr s) => s == attrVal
       | _ => false))

/-- The lean object `{_id, name, system_settings}` a repository read yields. -/
def docToJVal (c : CompanyDoc) : JVal :=
  .jobj ([("_id", .jstr c.id)]
    ++ (match c.name with | some n => [("name", n)] | none => [])
    ++ (match c.system_settings with | some ss => [("system_settings", ss)] | none => []))

/-- `getSystemSettings(companyId)` — cache-aside read of the Primary Entry
with repository fallback and full repopulation. -/
def getSystemSettings {σ : Type} (R : RedisIface σ) (s : σ) (db : Db)
    (companyId : String) : σ × Db × Except JsError (Option JVal) :=
  if companyId = "" then (s, db, .error ⟨"companyId is required"⟩)
  else
    match R.get s (mainSettingsKey companyId) with
    | (s1, .error e) => (s1, db, .error e)
    | (s1, .ok cachedSettings) =>
        if truthyOpt cachedSettings then (s1, db, .ok cachedSettings)
        else
          match findOneActiveById db companyId with
          | (db1, none) => (s1, db1, .ok none)
          | (db1, some company) =>
              if !truthyOpt company.system_settings then (s1, db1, .ok none)
              else
                match saveSettingInRedis R s1 (some (docToJVal company)) with
                | (s2, .error e) => (s2, db1, .error e)
                | (s2, .ok _) => (s2, db1, .ok company.system_settings)

/-- `getIdByIntegration(channel, attribute)` — reverse lookup through the
Secondary Entry with repository fallback.  The fourth component is the
fire-and-forget `updateIndexForChannelInRedis` task the source dispatches
without awaiting it; the returned value is computed before the task runs. -/
def getIdByIntegration {σ : Type} (R : RedisIface σ) (s : σ) (db : Db)
    (channel attrVal : String) :
    σ × Db × Except JsError (Option JVal) × Option (CompanyDoc × String) :=
  if channel = "" ∨ attrVal = "" then
    (s, db, .error ⟨"channel and attribute are required"⟩, none)
  else
    match defaultMetaIndexers.find? (fun i => i.platformName == channel) with
    | none => (s, db, .ok none, none)
    | some indexerConfig =>
        match R.get s (indexerConfig.redisKeyPrefix ++ ":" ++ attrVal) with
        | (s1, .error e) => (s1, db, .error e, none)
        | (s1, .ok cachedCompanyId) =>
            if truthyOpt cachedCompanyId then (s1, db, .ok cachedCompanyId, none)
            else
              match findOneActiveByPath db indexerConfig.tokenPath attrVal with
              | (db1, some company) =>
                  (s1, db1, .ok (some (.jstr company.id)), some (company, channel))
              | (db1, none) => (s1, db1, .ok none, none)

/-- Run the fire-and-forget repopulation task: `.then` and `.catch` only
log, so both outcomes reduce to the state the task produces. -/
def runBackgroundRepopulation {σ : Type} (R : RedisIface σ) (s : σ)
    (task : Option (CompanyDoc × String)) : σ :=
  match task with
  | none => s
  | some (company, channel) =>
      (updateIndexForChannelInRedis R s (some (docToJVal company)) channel).1

/-- Is an `Except` result a normal return (no exception)? -/
def exOk {α : Type} : Except JsError α → Bool
  | .ok _ => true
  | .error _ => false

/-- The secondary-index fan-out of `saveSettingInRedis`, as a fold. -/
def syncFold (cidv settings : JVal) (cfgs : List Indexer) (env : REnv) : REnv :=
  cfgs.foldl
    (fun acc cfg => (processAndSaveSecondaryIndex concreteRedis acc cidv settings cfg).1)
    env

/-- `getIdByIntegration` composed with its fire-and-forget repopulation
task (the caller itself never awaits this composition; it is stated to
reason about what the task can and cannot affect). -/
def getIdByIntegrationAndSync {σ : Type} (R : RedisIface σ) (s : σ) (db : Db)
    (channel attrVal : String) : σ × Db × Except JsError (Option JVal) :=
  match getIdByIntegration R s db channel attrVal with
  | (s1, db1, r, task) => (runBackgroundRepopulation R s1 task, db1, r)

/-- Keys that one indexer step may touch. -/
def avoids (settings : JVal) (cfg : Indexer) (key : String) : Prop :=
  ∀ tv, getDeepValue settings cfg.tokenPath = some tv → tv.truthy = true →
    key ≠ secondaryKey cfg tv

/-- Two indexers whose key prefixes start with different characters can
never produce the same cache key. -/
def sepKeys (c c' : Indexer) : Prop :=
  ∀ tv tv', secondaryKey c tv ≠ secondaryKey c' tv'

lemma skipWs_cons (c : Char) (r : List Char) (h : isWs c = false) :
    skipWs (c :: r) = c :: r := by
  simp [skipWs, h]

lemma takeDigits_append (ds rest : List Char)
    (hds : ∀ c ∈ ds, isDigitChar c = true)
    (hrest : ∀ c r, rest = c :: r → isDigitChar c = false) :
    takeDigits (ds ++ rest) = (ds, rest) := by
  induction ds with
  | nil =>
      cases rest with
      | nil => simp [takeDigits]
      | cons c r => simp [takeDigits, hrest c r rfl]
  | cons c ds ih =>
      have hc : isDigitChar c = true := hds c (by simp)
      have := ih (fun x hx => hds x (by simp [hx]))
      simp [takeDigits, hc, this]

lemma natDigits_small (n : Nat) (h : n < 10) : natDigits n = [Nat.digitChar n] := by
  rw [natDigits]; simp [h]

lemma natDigits_large (n : Nat) (h : ¬ n < 10) :
    natDigits n = natDigits (n / 10) ++ [Nat.digitChar (n % 10)] := by
  rw [natDigits]; simp [h]

lemma digitChar_isDigit : ∀ d, d < 10 → isDigitChar (Nat.digitChar d) = true := by
  decide

lemma digitChar_val : ∀ d, d < 10 → digitVal (Nat.digitChar d) = d := by
  decide

lemma digitChar_zero : ∀ d, d < 10 → (Nat.digitChar d = '0' ↔ d = 0) := by
  decide

lemma natDigits_ne_nil (n : Nat) : natDigits n ≠ [] := by
  by_cases h : n < 10
  · simp [natDigits_small n h]
  · simp [natDigits_large n h]

lemma natDigits_all_digits (n : Nat) : ∀ c ∈ natDigits n, isDigitChar c = true := by
  induction n using Nat.strong_induction_on with
  | _ n ih =>
      by_cases h : n < 10
      · simp [natDigits_small n h, digitChar_isDigit n h]
      · rw [natDigits_large n h]
        intro c hc
        rcases List.mem_append.mp hc with h1 | h1
        · exact ih (n / 10) (Nat.div_lt_self (by omega) (by omega)) c h1
        · simp at h1
          subst h1
          exact digitChar_isDigit _ (Nat.mod_lt _ (by omega))

lemma digitsToNat_nil (acc : Nat) : digitsToNat acc [] = acc := rfl

lemma digitsToNat_cons (acc : Nat) (c : Char) (cs : List Char) :
    digitsToNat acc (c :: cs) = digitsToNat (acc * 10 + digitVal c) cs := rfl

lemma digitsToNat_append (acc : Nat) (xs ys : List Char) :
    digitsToNat acc (xs ++ ys) = digitsToNat (digitsToNat acc xs) ys := by
  induction xs generalizing acc with
  | nil => simp [digitsToNat_nil]
  | cons c cs ih => simp [digitsToNat_cons, ih]

lemma digitsToNat_natDigits (n : Nat) :
    ∀ acc, digitsToNat acc (natDigits n) = acc * 10 ^ (natDigits n).length + n := by
  induction n using Nat.strong_induction_on with
  | _ n ih =>
      intro acc
      by_cases h : n < 10
      · simp [natDigits_small n h, digitsToNat_cons, digitsToNat_nil, digitChar_val n h]
      · rw [natDigits_large n h, digitsToNat_append]
        have hdiv := ih (n / 10) (Nat.div_lt_self (by omega) (by omega)) acc
        have hm : n % 10 < 10 := Nat.mod_lt _ (by omega)
        rw [hdiv, digitsToNat_cons, digitsToNat_nil, digitChar_val _ hm,
          List.length_append]
        have hdm : n / 10 * 10 + n % 10 = n := by omega
        have hp : 10 ^ ((natDigits (n / 10)).length + [Nat.digitChar (n % 10)].length)
            = 10 ^ (natDigits (n / 10)).length * 10 := by
          simp [pow_succ]
        rw [hp]
        ring_nf
        omega

lemma natDigits_head_ne_zero (n : Nat) (h : ¬ n < 10) :
    (natDigits n).head? ≠ some '0' := by
  induction n using Nat.strong_induction_on with
  | _ n ih =>
      rw [natDigits_large n h]
      rw [List.head?_append_of_ne_nil _ (natDigits_ne_nil _)]
      by_cases h2 : n / 10 < 10
      · rw [natDigits_small _ h2]
        have hpos : 1 ≤ n / 10 := Nat.one_le_div_iff (by omega) |>.mpr (by omega)
        simp
        intro hz
        have := (digitChar_zero _ h2).mp hz
        omega
      · exact ih (n / 10) (Nat.div_lt_self (by omega) (by omega)) h2

lemma follow_nil : follow [] := Or.inl rfl

lemma follow_comma (r : List Char) : follow (',' :: r) := Or.inr ⟨r, Or.inl rfl⟩

lemma follow_rbrack (r : List Char) : follow (']' :: r) := Or.inr ⟨r, Or.inr (Or.inl rfl)⟩

lemma follow_rbrace (r : List Char) : follow (rbrace :: r) := Or.inr ⟨r, Or.inr (Or.inr rfl)⟩

lemma follow_numBreak (rest : List Char) (h : follow rest) : numBreak rest = true := by
  rcases h with h | ⟨r', h | h | h⟩ <;> subst h <;> simp [numBreak, rbrace] <;> decide

lemma follow_not_digit (rest : List Char) (h : follow rest) :
    ∀ c r, rest = c :: r → isDigitChar c = false := by
  intro c r hcr
  rcases h with h | ⟨r', h | h | h⟩ <;> subst h
  · simp at hcr
  all_goals
    injection hcr with h1 h2
    subst h1
    decide

lemma parseUnsigned_natDigits (n : Nat) (rest : List Char)
    (h : numBreak rest = true) (hd : ∀ c r, rest = c :: r → isDigitChar c = false) :
    parseUnsigned (natDigits n ++ rest) = some (n, rest) := by
  rw [parseUnsigned, takeDigits_append _ _ (natDigits_all_digits n) hd]
  have hlen : ¬((natDigits n).length > 1 ∧ (natDigits n).head? = some '0') := by
    intro hand
    by_cases hn : n < 10
    · rw [natDigits_small n hn] at hand
      simp at hand
    · exact natDigits_head_ne_zero n hn hand.2
  have hv : digitsToNat 0 (natDigits n) = n := by
    have := digitsToNat_natDigits n 0
    simpa using this
  obtain ⟨c, cs, hne⟩ := List.exists_cons_of_ne_nil (natDigits_ne_nil n)
  rw [hne] at hlen hv ⊢
  have hlz : 0 < cs.length → ¬ c = '0' := fun hl hc =>
    hlen ⟨by simp; omega, by simp [hc]⟩
  simp [hlen, h, hv]
  exact hlz

lemma intChars_parseNum (n : Int) (rest : List Char)
    (h : numBreak rest = true) (hd : ∀ c r, rest = c :: r → isDigitChar c = false) :
    parseNum (intChars n ++ rest) = some (.jnum n, rest) := by
  by_cases hn : n < 0
  · rw [intChars, if_pos hn]
    rw [List.cons_append, parseNum]
    rw [if_pos rfl, parseUnsigned_natDigits _ _ h hd]
    have hval : -((n.natAbs : Nat) : Int) = n := by omega
    show some (JVal.jnum (-((n.natAbs : Nat) : Int)), rest) = some (JVal.jnum n, rest)
    rw [hval]
  · rw [intChars, if_neg hn]
    obtain ⟨c, cs, hcc⟩ := List.exists_cons_of_ne_nil (natDigits_ne_nil n.natAbs)
    have hcd : isDigitChar c = true := by
      apply natDigits_all_digits n.natAbs
      rw [hcc]; simp
    rw [hcc, List.cons_append, parseNum]
    rw [if_neg (by
      intro hc
      subst hc
      simp [isDigitChar] at hcd)]
    rw [← List.cons_append, ← hcc, parseUnsigned_natDigits _ _ h hd]
    have hval : (((n.natAbs : Nat)) : Int) = n := by omega
    show some (JVal.jnum ((n.natAbs : Nat) : Int), rest) = some (JVal.jnum n, rest)
    rw [hval]

lemma parseStrBody_quote (r : List Char) : parseStrBody ('"' :: r) = some ([], r) := by
  rw [parseStrBody.eq_def]
  simp

lemma parseStrBody_esc (s rest : List Char) :
    parseStrBody (escStr s ++ '"' :: rest) = some (s, rest) := by
  induction s with
  | nil => simpa [escStr] using parseStrBody_quote rest
  | cons c cs ih =>
      have hstep : escStr (c :: cs) = escChar c ++ escStr cs := by
        simp [escStr]
      rw [hstep, List.append_assoc]
      by_cases h1 : c = '"'
      · subst h1
        have he : escChar '"' = ['\\', '"'] := by decide
        rw [he, List.cons_append, List.cons_append, parseStrBody.eq_def]
        simp [unescChar, ih]
      · by_cases h2 : c = '\\'
        · subst h2
          have he : escChar '\\' = ['\\', '\\'] := by decide
          rw [he, List.cons_append, List.cons_append, parseStrBody.eq_def]
          simp [unescChar, ih]
        · by_cases h3 : c = '\n'
          · subst h3
            have he : escChar '\n' = ['\\', 'n'] := by decide
            rw [he, List.cons_append, List.cons_append, parseStrBody.eq_def]
            simp [unescChar, ih]
          · by_cases h4 : c = '\t'
            · subst h4
              have he : escChar '\t' = ['\\', 't'] := by decide
              rw [he, List.cons_append, List.cons_append, parseStrBody.eq_def]
              simp [unescChar, ih]
            · by_cases h5 : c = '\r'
              · subst h5
                have he : escChar '\r' = ['\\', 'r'] := by decide
                rw [he, List.cons_append, List.cons_append, parseStrBody.eq_def]
                simp [unescChar, ih]
              · have he : escChar c = [c] := by
                  rw [escChar, if_neg h1, if_neg h2, if_neg h3, if_neg h4, if_neg h5]
                rw [he, List.cons_append, List.nil_append, parseStrBody.eq_def]
                simp [h1, h2, ih]

lemma char_ne_of_toNat_ne (c d : Char) (h : c.toNat ≠ d.toNat) : c ≠ d :=
  fun he => h (he ▸ rfl)

lemma digit_bounds (c : Char) (h : isDigitChar c = true) :
    48 ≤ c.toNat ∧ c.toNat ≤ 57 := by
  simpa [isDigitChar] using h

lemma digit_ne (c : Char) (h : isDigitChar c = true) (d : Char)
    (hd : d.toNat < 48 ∨ 57 < d.toNat) : c ≠ d := by
  have hb := digit_bounds c h
  exact char_ne_of_toNat_ne c d (by omega)

lemma digit_not_ws (c : Char) (h : isDigitChar c = true) : isWs c = false := by
  have hb := digit_bounds c h
  have h1 : c ≠ ' ' := char_ne_of_toNat_ne c ' ' (by
    have : (' ' : Char).toNat = 32 := by decide
    omega)
  have h2 : c ≠ '\n' := char_ne_of_toNat_ne c '\n' (by
    have : ('\n' : Char).toNat = 10 := by decide
    omega)
  have h3 : c ≠ '\t' := char_ne_of_toNat_ne c '\t' (by
    have : ('\t' : Char).toNat = 9 := by decide
    omega)
  have h4 : c ≠ '\r' := char_ne_of_toNat_ne c '\r' (by
    have : ('\r' : Char).toNat = 13 := by decide
    omega)
  simp [isWs, h1, h2, h3, h4]

lemma sizeV_pos (v : JVal) : 1 ≤ sizeV v := by
  cases v <;> simp [sizeV]

lemma sizeItems_pos (vs : List JVal) : 1 ≤ sizeV.sizeItems vs := by
  cases vs with
  | nil => simp [sizeV.sizeItems]
  | cons v vs =>
      simp [sizeV.sizeItems]
      omega

lemma sizeFields_pos (kvs : List (String × JVal)) : 1 ≤ sizeV.sizeFields kvs := by
  cases kvs with
  | nil => simp [sizeV.sizeFields]
  | cons kv kvs =>
      obtain ⟨k, v⟩ := kv
      simp [sizeV.sizeFields]
      omega

/-- The first character of an encoded value is never whitespace and never a
closing bracket, a closing brace or a separator. -/
lemma encVal_head (v : JVal) :
    ∃ c t, encVal v = c :: t ∧ isWs c = false ∧ c ≠ ']' ∧ c ≠ rbrace := by
  cases v with
  | jnull => refine ⟨'n', _, rfl, ?_, ?_, ?_⟩ <;> decide
  | jbool b =>
      cases b
      · refine ⟨'f', _, rfl, ?_, ?_, ?_⟩ <;> decide
      · refine ⟨'t', _, rfl, ?_, ?_, ?_⟩ <;> decide
  | jnum n =>
      by_cases hn : n < 0
      · refine ⟨'-', natDigits n.natAbs, ?_, by decide, by decide, by decide⟩
        simp [encVal, intChars, hn]
      · obtain ⟨c, cs, hcc⟩ := List.exists_cons_of_ne_nil (natDigits_ne_nil n.natAbs)
        have hcd : isDigitChar c = true := by
          apply natDigits_all_digits n.natAbs
          rw [hcc]; simp
        refine ⟨c, cs, ?_, digit_not_ws c hcd, ?_, ?_⟩
        · simp [encVal, intChars, hn, hcc]
        · exact digit_ne c hcd ']' (by decide)
        · exact digit_ne c hcd rbrace (by decide)
  | jstr s => refine ⟨'"', _, rfl, ?_, ?_, ?_⟩ <;> decide
  | jarr xs => refine ⟨'[', _, rfl, ?_, ?_, ?_⟩ <;> decide
  | jobj kvs => refine ⟨lbrace, _, rfl, ?_, ?_, ?_⟩ <;> decide

lemma encItems_cons_eq (v : JVal) (vs : List JVal) :
    ∃ s, encItems (v :: vs) = encVal v ++ s := by
  cases vs with
  | nil => exact ⟨[], by simp [encItems]⟩
  | cons w ws => exact ⟨',' :: encItems (w :: ws), by simp [encItems]⟩

lemma encFields_cons_eq (k : String) (v : JVal) (kvs : List (String × JVal)) :
    ∃ t, encFields ((k, v) :: kvs) = '"' :: (escStr k.data ++ '"' :: (':' :: encVal v ++ t)) := by
  cases kvs with
  | nil =>
      refine ⟨[], ?_⟩
      simp [encFields, encStrLit]
  | cons kv kvs =>
      refine ⟨',' :: encFields (kv :: kvs), ?_⟩
      simp [encFields, encStrLit]

lemma isWs_rbrack : isWs ']' = false := by decide

lemma isWs_rbraceF : isWs rbrace = false := by decide

lemma isWs_commaF : isWs ',' = false := by decide

lemma isWs_colonF : isWs ':' = false := by decide

lemma isWs_quoteF : isWs '"' = false := by decide

lemma lbrace_ne_n : lbrace ≠ 'n' := by decide

lemma lbrace_ne_t : lbrace ≠ 't' := by decide

lemma lbrace_ne_f : lbrace ≠ 'f' := by decide

lemma lbrace_ne_quote : lbrace ≠ '"' := by decide

lemma lbrace_ne_lbrack : lbrace ≠ '[' := by decide

lemma quote_ne_rbrace : '"' ≠ rbrace := by decide

lemma rbrace_ne_comma : rbrace ≠ ',' := by decide

/-- Joint decoder-correctness statement for values, item lists and field
lists, by induction on the decoder's fuel. -/
lemma parse_enc_all : ∀ fuel : Nat,
    (∀ v rest, sizeV v ≤ fuel → follow rest →
       parseVal fuel (encVal v ++ rest) = some (v, rest)) ∧
    (∀ vs rest, vs ≠ [] → sizeV.sizeItems vs ≤ fuel →
       parseItems fuel (encItems vs ++ ']' :: rest) = some (vs, ']' :: rest)) ∧
    (∀ kvs rest, kvs ≠ [] → sizeV.sizeFields kvs ≤ fuel →
       parseFields fuel (encFields kvs ++ rbrace :: rest) = some (kvs, rbrace :: rest)) := by
  intro fuel
  induction fuel with
  | zero =>
      refine ⟨?_, ?_, ?_⟩
      · intro v rest hsz _
        exact absurd hsz (by have := sizeV_pos v; omega)
      · intro vs rest _ hsz
        exact absurd hsz (by have := sizeItems_pos vs; omega)
      · intro kvs rest _ hsz
        exact absurd hsz (by have := sizeFields_pos kvs; omega)
  | succ fuel ih =>
      obtain ⟨ihP, ihQ, ihR⟩ := ih
      refine ⟨?_, ?_, ?_⟩
      · -- values
        intro v rest hsz hf
        cases v with
        | jnull =>
            have he : encVal .jnull ++ rest = 'n' :: 'u' :: 'l' :: 'l' :: rest := rfl
            rw [he, parseVal, skipWs_cons _ _ (by decide)]
            simp [expectLit]
        | jbool b =>
            cases b with
            | true =>
                have he : encVal (.jbool true) ++ rest = 't' :: 'r' :: 'u' :: 'e' :: rest := rfl
                rw [he, parseVal, skipWs_cons _ _ (by decide)]
                simp [expectLit]
            | false =>
                have he : encVal (.jbool false) ++ rest
                    = 'f' :: 'a' :: 'l' :: 's' :: 'e' :: rest := rfl
                rw [he, parseVal, skipWs_cons _ _ (by decide)]
                simp [expectLit]
        | jnum n =>
            by_cases hn : n < 0
            · have he : encVal (.jnum n) ++ rest = '-' :: (natDigits n.natAbs ++ rest) := by
                simp [encVal, intChars, hn]
              rw [he, parseVal, skipWs_cons _ _ (by decide)]
              have hp : '-' :: (natDigits n.natAbs ++ rest) = intChars n ++ rest := by
                simp [intChars, hn]
              simp only []
              rw [if_neg (by decide), if_neg (by decide), if_neg (by decide),
                if_neg (by decide), if_neg (by decide), if_neg (by decide)]
              rw [hp, intChars_parseNum n rest (follow_numBreak rest hf)
                (follow_not_digit rest hf)]
            · obtain ⟨c, cs, hcc⟩ := List.exists_cons_of_ne_nil (natDigits_ne_nil n.natAbs)
              have hcd : isDigitChar c = true := by
                apply natDigits_all_digits n.natAbs
                rw [hcc]; simp
              have he : encVal (.jnum n) ++ rest = c :: (cs ++ rest) := by
                simp [encVal, intChars, hn, hcc]
              rw [he, parseVal, skipWs_cons _ _ (digit_not_ws c hcd)]
              simp only []
              rw [if_neg (digit_ne c hcd 'n' (by decide)),
                if_neg (digit_ne c hcd 't' (by decide)),
                if_neg (digit_ne c hcd 'f' (by decide)),
                if_neg (digit_ne c hcd '"' (by decide)),
                if_neg (digit_ne c hcd '[' (by decide)),
                if_neg (digit_ne c hcd lbrace (by decide))]
              have hp : c :: (cs ++ rest) = intChars n ++ rest := by
                simp [intChars, hn, hcc]
              rw [hp, intChars_parseNum n rest (follow_numBreak rest hf)
                (follow_not_digit rest hf)]
        | jstr s =>
            have he : encVal (.jstr s) ++ rest
                = '"' :: (escStr s.data ++ '"' :: rest) := by
              simp [encVal, encStrLit]
            rw [he, parseVal, skipWs_cons _ _ (by decide)]
            simp [parseStrBody_esc]
        | jarr xs =>
            cases xs with
            | nil =>
                have he : encVal (.jarr []) ++ rest = '[' :: ']' :: rest := by
                  simp [encVal, encItems]
                rw [he, parseVal, skipWs_cons _ _ (by decide)]
                simp [skipWs_cons _ _ (by decide : isWs ']' = false)]
            | cons v vs =>
                have he : encVal (.jarr (v :: vs)) ++ rest
                    = '[' :: (encItems (v :: vs) ++ ']' :: rest) := by
                  simp [encVal]
                obtain ⟨s, hs⟩ := encItems_cons_eq v vs
                obtain ⟨c, t, hct, hws, hne1, _⟩ := encVal_head v
                have hscrut : encItems (v :: vs) ++ ']' :: rest
                    = c :: (t ++ (s ++ ']' :: rest)) := by
                  rw [hs, hct]
                  simp
                have hq := ihQ (v :: vs) rest (by simp)
                  (by
                    simp [sizeV, sizeV.sizeItems] at hsz ⊢
                    omega)
                rw [hscrut] at hq
                rw [he, parseVal, skipWs_cons _ _ (by decide), hscrut]
                simp [skipWs, hws, hne1, hq, isWs_rbrack]
        | jobj kvs =>
            cases kvs with
            | nil =>
                have he : encVal (.jobj []) ++ rest = lbrace :: rbrace :: rest := by
                  simp [encVal, encFields]
                rw [he, parseVal, skipWs_cons _ _ (by decide)]
                simp [skipWs, isWs_rbraceF, lbrace_ne_n, lbrace_ne_t, lbrace_ne_f,
                  lbrace_ne_quote, lbrace_ne_lbrack]
            | cons kv kvs =>
                obtain ⟨k, v⟩ := kv
                have he : encVal (.jobj ((k, v) :: kvs)) ++ rest
                    = lbrace :: (encFields ((k, v) :: kvs) ++ rbrace :: rest) := by
                  simp [encVal]
                obtain ⟨t, ht⟩ := encFields_cons_eq k v kvs
                have hscrut : encFields ((k, v) :: kvs) ++ rbrace :: rest
                    = '"' :: ((escStr k.data ++ '"' :: (':' :: encVal v ++ t)) ++ rbrace :: rest) := by
                  rw [ht]
                  simp
                have hr := ihR ((k, v) :: kvs) rest (by simp)
                  (by
                    simp [sizeV, sizeV.sizeFields] at hsz ⊢
                    omega)
                rw [hscrut] at hr
                simp only [List.append_assoc, List.cons_append] at hr
                rw [he, parseVal, skipWs_cons _ _ (by decide), hscrut]
                simp [skipWs, hr, isWs_rbraceF, isWs_quoteF, lbrace_ne_n, lbrace_ne_t, lbrace_ne_f, lbrace_ne_quote, lbrace_ne_lbrack, quote_ne_rbrace]
      · -- item lists
        intro vs rest hne hsz
        cases vs with
        | nil => exact absurd rfl hne
        | cons v vs =>
            cases vs with
            | nil =>
                have he : encItems [v] ++ ']' :: rest = encVal v ++ ']' :: rest := by
                  simp [encItems]
                rw [he, parseItems]
                rw [ihP v (']' :: rest)
                  (by
                    simp [sizeV.sizeItems] at hsz
                    have := sizeV_pos v
                    omega)
                  (follow_rbrack rest)]
                simp [skipWs_cons _ _ (by decide : isWs ']' = false)]
            | cons w ws =>
                have he : encItems (v :: w :: ws) ++ ']' :: rest
                    = encVal v ++ (',' :: (encItems (w :: ws) ++ ']' :: rest)) := by
                  simp [encItems]
                have hq := ihQ (w :: ws) rest (by simp)
                  (by
                    simp [sizeV.sizeItems] at hsz ⊢
                    omega)
                rw [he, parseItems]
                rw [ihP v (',' :: (encItems (w :: ws) ++ ']' :: rest))
                  (by
                    simp [sizeV.sizeItems] at hsz
                    have := sizeItems_pos ws
                    omega)
                  (follow_comma _)]
                simp [skipWs, hq, isWs_commaF, isWs_rbrack]
      · -- field lists
        intro kvs rest hne hsz
        cases kvs with
        | nil => exact absurd rfl hne
        | cons kv kvs =>
            obtain ⟨k, v⟩ := kv
            cases kvs with
            | nil =>
                have he : encFields [(k, v)] ++ rbrace :: rest
                    = '"' :: (escStr k.data ++ '"' :: (':' :: (encVal v ++ rbrace :: rest))) := by
                  simp [encFields, encStrLit]
                have hp := ihP v (rbrace :: rest)
                  (by
                    simp [sizeV.sizeFields] at hsz
                    have := sizeV_pos v
                    omega)
                  (follow_rbrace rest)
                rw [he, parseFields, skipWs_cons _ _ (by decide)]
                simp [skipWs, parseStrBody_esc, hp, isWs_colonF, isWs_rbraceF, rbrace_ne_comma]
            | cons kv2 kvs =>
                have he : encFields ((k, v) :: kv2 :: kvs) ++ rbrace :: rest
                    = '"' :: (escStr k.data ++ '"' ::
                        (':' :: (encVal v ++ ',' :: (encFields (kv2 :: kvs) ++ rbrace :: rest)))) := by
                  simp [encFields, encStrLit]
                have hp := ihP v (',' :: (encFields (kv2 :: kvs) ++ rbrace :: rest))
                  (by
                    simp [sizeV.sizeFields] at hsz
                    have := sizeFields_pos kvs
                    omega)
                  (follow_comma _)
                have hr := ihR (kv2 :: kvs) rest (by simp)
                  (by
                    simp [sizeV.sizeFields] at hsz ⊢
                    omega)
                rw [he, parseFields, skipWs_cons _ _ (by decide)]
                simp [skipWs, parseStrBody_esc, hp, hr, isWs_colonF, isWs_commaF, isWs_rbraceF, rbrace_ne_comma]

/-- Structural induction principle for the nested inductive `JVal`. -/
theorem JVal.myrec (P : JVal → Prop)
    (hnull : P .jnull) (hbool : ∀ b, P (.jbool b)) (hnum : ∀ n, P (.jnum n))
    (hstr : ∀ s, P (.jstr s))
    (harr : ∀ xs, (∀ x ∈ xs, P x) → P (.jarr xs))
    (hobj : ∀ kvs, (∀ kv ∈ kvs, P kv.2) → P (.jobj kvs)) :
    ∀ v, P v
  | .jnull => hnull
  | .jbool b => hbool b
  | .jnum n => hnum n
  | .jstr s => hstr s
  | .jarr xs => harr xs (fun x hx =>
      JVal.myrec P hnull hbool hnum hstr harr hobj x)
  | .jobj kvs => hobj kvs (fun kv hkv =>
      JVal.myrec P hnull hbool hnum hstr harr hobj kv.2)
  termination_by v => sizeOf v
  decreasing_by
    · have := List.sizeOf_lt_of_mem hx
      simp
      omega
    · have h1 := List.sizeOf_lt_of_mem hkv
      obtain ⟨a, b⟩ := kv
      simp at h1 ⊢
      omega

lemma encStrLit_len (k : String) : 2 ≤ (encStrLit k).length := by
  simp [encStrLit]

lemma encVal_len_pos (v : JVal) : 1 ≤ (encVal v).length := by
  obtain ⟨c, t, hct, _, _, _⟩ := encVal_head v
  rw [hct]
  simp

lemma sizeItems_bound (xs : List JVal)
    (h : ∀ x ∈ xs, sizeV x + 2 ≤ 3 * (encVal x).length) :
    sizeV.sizeItems xs ≤ 3 * (encItems xs).length + 1 := by
  induction xs with
  | nil => simp [sizeV.sizeItems, encItems]
  | cons v vs ih =>
      have hv := h v (by simp)
      cases vs with
      | nil =>
          simp [sizeV.sizeItems, encItems]
          omega
      | cons w ws =>
          have hce : encItems (v :: w :: ws) = encVal v ++ ',' :: encItems (w :: ws) := by
            simp [encItems]
          have := ih (fun x hx => h x (by simp at hx ⊢; tauto))
          rw [hce]
          simp [sizeV.sizeItems] at this ⊢
          omega

lemma sizeFields_bound (kvs : List (String × JVal))
    (h : ∀ kv ∈ kvs, sizeV kv.2 + 2 ≤ 3 * (encVal kv.2).length) :
    sizeV.sizeFields kvs ≤ 3 * (encFields kvs).length + 1 := by
  induction kvs with
  | nil => simp [sizeV.sizeFields, encFields]
  | cons kv kvs ih =>
      obtain ⟨k, v⟩ := kv
      have hv := h (k, v) (by simp)
      have hk := encStrLit_len k
      cases kvs with
      | nil =>
          simp [sizeV.sizeFields, encFields, encStrLit] at hv ⊢
          simp [encStrLit] at hk
          omega
      | cons kv2 kvs =>
          have hce : encFields ((k, v) :: kv2 :: kvs)
              = encStrLit k ++ ':' :: encVal v ++ ',' :: encFields (kv2 :: kvs) := by
            simp [encFields]
          have := ih (fun x hx => h x (by simp at hx ⊢; tauto))
          rw [hce]
          simp [sizeV.sizeFields] at this hv ⊢
          omega

lemma sizeV_bound : ∀ v : JVal, sizeV v + 2 ≤ 3 * (encVal v).length := by
  intro v
  induction v using JVal.myrec with
  | hnull => simp [sizeV, encVal]
  | hbool b => cases b <;> simp [sizeV, encVal]
  | hnum n =>
      have := encVal_len_pos (.jnum n)
      simp [sizeV]
      omega
  | hstr s =>
      have := encStrLit_len s
      simp [sizeV, encVal]
      omega
  | harr xs h =>
      have := sizeItems_bound xs h
      simp [sizeV, encVal]
      omega
  | hobj kvs h =>
      have := sizeFields_bound kvs h
      simp [sizeV, encVal]
      omega

/-- Round-trip: decoding an encoded value returns exactly that value. -/
theorem jsonParse_stringify (v : JVal) : jsonParse (jsonStringify v) = some v := by
  have hbound := sizeV_bound v
  rw [jsonParse]
  have hdata : (jsonStringify v).data = encVal v := rfl
  have hlen : (jsonStringify v).length = (encVal v).length := rfl
  rw [hdata, hlen]
  have hP := (parse_enc_all (3 * (encVal v).length + 1)).1 v [] (by omega) follow_nil
  rw [List.append_nil] at hP
  rw [hP]
  simp [skipWs]

/-! ### Store and client lemmas -/

lemma kvGet_nil (k : String) : kvGet [] k = none := rfl

lemma kvGet_cons (p : String × String) (l : List (String × String)) (k : String) :
    kvGet (p :: l) k = if p.1 == k then some p.2 else kvGet l k := by
  by_cases h : p.1 == k <;> simp [kvGet, List.find?_cons, h]

lemma kvGet_set_self (l : List (String × String)) (k v : String) :
    kvGet (kvSet l k v) k = some v := by
  induction l with
  | nil => simp [kvSet, kvGet]
  | cons p t ih =>
      by_cases h : p.1 = k
      · simpa [kvSet, h] using ih
      · simpa [kvSet, kvGet_cons, h] using ih

lemma kvGet_set_other (l : List (String × String)) (k k' v : String) (h : k' ≠ k) :
    kvGet (kvSet l k v) k' = kvGet l k' := by
  induction l with
  | nil =>
      simp [kvSet, kvGet_cons, kvGet_nil]
      exact fun he => h he.symm
  | cons p t ih =>
      by_cases hp : p.1 = k
      · rw [show kvSet (p :: t) k v = kvSet t k v by simp [kvSet, hp], ih,
          kvGet_cons, if_neg (by simp [hp]; exact fun he => h he.symm)]
      · rw [show kvSet (p :: t) k v = p :: kvSet t k v by simp [kvSet, hp],
          kvGet_cons, kvGet_cons, ih]

lemma containsKey_set_self (l : List (String × String)) (k v : String) :
    containsKey (kvSet l k v) k = true := by
  simp [kvSet, containsKey]

lemma containsKey_set_other (l : List (String × String)) (k k' v : String) (h : k' ≠ k) :
    containsKey (kvSet l k v) k' = containsKey l k' := by
  induction l with
  | nil =>
      simp [kvSet, containsKey]
      exact fun he => h he.symm
  | cons p t ih =>
      by_cases hp : p.1 = k
      · rw [show kvSet (p :: t) k v = kvSet t k v by simp [kvSet, hp], ih]
        simp [containsKey, hp]
        exact fun he => absurd he.symm h
      · rw [show kvSet (p :: t) k v = p :: kvSet t k v by simp [kvSet, hp]]
        simp [containsKey] at ih ⊢
        rw [ih]

lemma kvSet_length_new (l : List (String × String)) (k v : String)
    (h : containsKey l k = false) : (kvSet l k v).length = l.length + 1 := by
  have : l.filter (fun p => p.1 != k) = l := by
    apply List.filter_eq_self.mpr
    intro p hp
    simp [containsKey, List.any_eq_true] at h
    simpa using h p.1 p.2 hp
  simp [kvSet, this]

lemma head_append (p x : String) (c : Char) (h : p.data.head? = some c) :
    (p ++ x).data.head? = some c := by
  cases hp : p.data with
  | nil => rw [hp] at h; cases h
  | cons d t =>
      rw [hp] at h
      simp at h
      subst h
      simp [String.data_append, hp]

lemma ne_of_head_ne (s t : String) (c1 c2 : Char) (h1 : s.data.head? = some c1)
    (h2 : t.data.head? = some c2) (h : c1 ≠ c2) : s ≠ t := by
  intro he
  rw [he, h2] at h1
  injection h1 with hh
  exact h hh.symm

lemma mainKey_head (x : String) :
    (mainSettingsKey x).data.head? = some 'c' :=
  head_append "company_settings:" x 'c' rfl

lemma secondaryKey_head (cfg : Indexer) (tv : JVal) (c : Char)
    (h : cfg.redisKeyPrefix.data.head? = some c) :
    (secondaryKey cfg tv).data.head? = some c :=
  head_append _ _ c (head_append _ ":" c h)

/-- Concrete `setData` on a ready connection with a healthy transport
writes the standard encoding. -/
lemma setData_ok_truthy (env : REnv) (hready : env.ready = true)
    (hbeh : env.behs = []) (k : String) (v : JVal) (hv : v.truthy = true) :
    RedisService.setData env k (some v)
      = ({ env with kv := kvSet env.kv k (storeValue v) }, .ok (some "OK")) := by
  cases v <;>
    simp_all [RedisService.setData, popBeh, JVal.truthy]

/-- Concrete `getData` on a ready connection with a healthy transport. -/
lemma getData_ready (env : REnv) (hready : env.ready = true)
    (hbeh : env.behs = []) (k : String) :
    RedisService.getData env k
      = (env, .ok (match kvGet env.kv k with
          | none => none
          | some s => some ((jsonParse s).getD (.jstr s)))) := by
  simp only [RedisService.getData, hready, hbeh]
  cases h : kvGet env.kv k with
  | none => simp [popBeh, hbeh, h]
  | some s =>
      cases hp : jsonParse s with
      | none => simp [popBeh, hbeh, h, hp]
      | some v => simp [popBeh, hbeh, h, hp]

lemma setData_isOk (env : REnv) (k : String) (v : Option JVal) :
    exOk (RedisService.setData env k v).2 = true := by
  unfold RedisService.setData
  split
  · rfl
  split
  · rfl
  · rfl
  · rcases hpb : popBeh env with ⟨b, env1⟩
    cases b <;> rfl

lemma getData_isOk (env : REnv) (k : String) :
    exOk (RedisService.getData env k).2 = true := by
  unfold RedisService.getData
  split
  · rfl
  · rcases hpb : popBeh env with ⟨b, env1⟩
    cases b with
    | ok =>
        cases h : kvGet env1.kv k with
        | none => simp [h, exOk]
        | some str =>
            cases hp : jsonParse str <;> simp [h, hp, exOk]
    | err e => rfl

lemma delData_isOk (env : REnv) (ks : List String) :
    exOk (RedisService.delData env ks).2 = true := by
  unfold RedisService.delData
  split
  · rfl
  · rcases hpb : popBeh env with ⟨b, env1⟩
    cases b <;> rfl

/-! ### Synchronizer run lemmas -/

lemma optIndex_pair_id (cidv settings : JVal) :
    optIndex (some (.jobj [("_id", cidv), ("system_settings", settings)])) "_id"
      = some cidv := by
  simp [optIndex, JVal.index]

lemma optIndex_pair_ss (cidv settings : JVal) :
    optIndex (some (.jobj [("_id", cidv), ("system_settings", settings)])) "system_settings"
      = some settings := by
  simp [optIndex, JVal.index]

lemma validCompany_pair (cidv settings : JVal) :
    validCompany (some (.jobj [("_id", cidv), ("system_settings", settings)]))
      = (cidv.truthy && settings.truthy) := by
  simp [validCompany, truthyOpt, optIndex, JVal.index, JVal.truthy]

/-- One secondary-index step against the real client on a live connection
with a healthy transport: a truthy token writes its entry, anything else
leaves the store untouched; the step never fails. -/
lemma process_concrete_step (env : REnv) (hready : env.ready = true)
    (hbeh : env.behs = []) (cidv settings : JVal) (hid : cidv.truthy = true)
    (cfg : Indexer) :
    processAndSaveSecondaryIndex concreteRedis env cidv settings cfg
      = (match getDeepValue settings cfg.tokenPath with
         | some tv =>
             if tv.truthy
             then { env with kv := kvSet env.kv (secondaryKey cfg tv) (storeValue cidv) }
             else env
         | none => env, .ok ()) := by
  unfold processAndSaveSecondaryIndex
  cases h : getDeepValue settings cfg.tokenPath with
  | none => simp
  | some tv =>
      by_cases ht : tv.truthy
      · simp [ht, show concreteRedis.set = RedisService.setData from rfl,
          setData_ok_truthy env hready hbeh (secondaryKey cfg tv) cidv hid]
      · simp [ht]

/-- `saveSettingInRedis` against the real client on a live connection with
a healthy transport: validation, then the primary write, then the three
independent secondary steps. -/
lemma saveSetting_concrete_run (env : REnv) (hready : env.ready = true)
    (hbeh : env.behs = []) (cidv settings : JVal) (hid : cidv.truthy = true)
    (hset : settings.truthy = true) :
    saveSettingInRedis concreteRedis env
        (some (.jobj [("_id", cidv), ("system_settings", settings)]))
      = (defaultMetaIndexers.foldl
          (fun acc cfg => (processAndSaveSecondaryIndex concreteRedis acc cidv settings cfg).1)
          { env with kv := kvSet env.kv (mainSettingsKey (jsToString cidv)) (storeValue settings) },
         .ok ()) := by
  unfold saveSettingInRedis
  rw [validCompany_pair, hid, hset]
  simp only [Bool.and_self, Bool.not_true, Bool.false_eq_true, if_false,
    optIndex_pair_id, optIndex_pair_ss, Option.getD_some]
  unfold saveMainCompanySettings
  rw [show concreteRedis.set = RedisService.setData from rfl,
    setData_ok_truthy env hready hbeh _ settings hset]

lemma syncFold_nil (cidv settings : JVal) (env : REnv) :
    syncFold cidv settings [] env = env := rfl

lemma syncFold_cons (cidv settings : JVal) (c : Indexer) (cs : List Indexer) (env : REnv) :
    syncFold cidv settings (c :: cs) env
      = syncFold cidv settings cs
          (processAndSaveSecondaryIndex concreteRedis env cidv settings c).1 := rfl

section StepFacts

variable (cidv settings : JVal)

lemma step_state (env : REnv) (hr : env.ready = true) (hb : env.behs = [])
    (hid : cidv.truthy = true) (cfg : Indexer) :
    (processAndSaveSecondaryIndex concreteRedis env cidv settings cfg).1.ready = true ∧
    (processAndSaveSecondaryIndex concreteRedis env cidv settings cfg).1.behs = [] ∧
    (processAndSaveSecondaryIndex concreteRedis env cidv settings cfg).1.groups = env.groups := by
  rw [process_concrete_step env hr hb cidv settings hid cfg]
  cases h : getDeepValue settings cfg.tokenPath with
  | none => simp [hr, hb]
  | some tv => by_cases ht : tv.truthy <;> simp [ht, hr, hb]

lemma step_frame (env : REnv) (hr : env.ready = true) (hb : env.behs = [])
    (hid : cidv.truthy = true) (cfg : Indexer) (key : String)
    (hav : avoids settings cfg key) :
    kvGet (processAndSaveSecondaryIndex concreteRedis env cidv settings cfg).1.kv key
        = kvGet env.kv key ∧
    containsKey (processAndSaveSecondaryIndex concreteRedis env cidv settings cfg).1.kv key
        = containsKey env.kv key := by
  rw [process_concrete_step env hr hb cidv settings hid cfg]
  cases h : getDeepValue settings cfg.tokenPath with
  | none => simp
  | some tv =>
      by_cases ht : tv.truthy
      · have hne := hav tv h ht
        simp [ht, kvGet_set_other _ _ _ _ hne, containsKey_set_other _ _ _ _ hne]
      · simp [ht]

lemma step_write (env : REnv) (hr : env.ready = true) (hb : env.behs = [])
    (hid : cidv.truthy = true) (cfg : Indexer) (tv : JVal)
    (h : getDeepValue settings cfg.tokenPath = some tv) (ht : tv.truthy = true) :
    kvGet (processAndSaveSecondaryIndex concreteRedis env cidv settings cfg).1.kv
        (secondaryKey cfg tv) = some (storeValue cidv) := by
  rw [process_concrete_step env hr hb cidv settings hid cfg, h]
  simp [ht, kvGet_set_self]

lemma step_len (env : REnv) (hr : env.ready = true) (hb : env.behs = [])
    (hid : cidv.truthy = true) (cfg : Indexer)
    (hfresh : ∀ tv, getDeepValue settings cfg.tokenPath = some tv → tv.truthy = true →
      containsKey env.kv (secondaryKey cfg tv) = false) :
    (processAndSaveSecondaryIndex concreteRedis env cidv settings cfg).1.kv.length
      = env.kv.length
        + (if truthyOpt (getDeepValue settings cfg.tokenPath) then 1 else 0) := by
  rw [process_concrete_step env hr hb cidv settings hid cfg]
  cases h : getDeepValue settings cfg.tokenPath with
  | none => simp [truthyOpt]
  | some tv =>
      by_cases ht : tv.truthy
      · simp [ht, truthyOpt, kvSet_length_new _ _ _ (hfresh tv h ht)]
      · simp [ht, truthyOpt]

lemma syncFold_state (hid : cidv.truthy = true) :
    ∀ cfgs (env : REnv), env.ready = true → env.behs = [] →
      (syncFold cidv settings cfgs env).ready = true ∧
      (syncFold cidv settings cfgs env).behs = [] ∧
      (syncFold cidv settings cfgs env).groups = env.groups := by
  intro cfgs
  induction cfgs with
  | nil => intro env hr hb; simp [syncFold_nil, hr, hb]
  | cons c cs ih =>
      intro env hr hb
      obtain ⟨h1, h2, h3⟩ := step_state cidv settings env hr hb hid c
      rw [syncFold_cons]
      obtain ⟨g1, g2, g3⟩ := ih _ h1 h2
      exact ⟨g1, g2, g3.trans h3⟩

lemma syncFold_frame (hid : cidv.truthy = true) :
    ∀ cfgs (env : REnv), env.ready = true → env.behs = [] →
      ∀ key, (∀ cfg ∈ cfgs, avoids settings cfg key) →
        kvGet (syncFold cidv settings cfgs env).kv key = kvGet env.kv key ∧
        containsKey (syncFold cidv settings cfgs env).kv key = containsKey env.kv key := by
  intro cfgs
  induction cfgs with
  | nil => intro env hr hb key hav; simp [syncFold_nil]
  | cons c cs ih =>
      intro env hr hb key hav
      obtain ⟨h1, h2, _⟩ := step_state cidv settings env hr hb hid c
      obtain ⟨f1, f2⟩ := step_frame cidv settings env hr hb hid c key (hav c (by simp))
      rw [syncFold_cons]
      obtain ⟨g1, g2⟩ := ih _ h1 h2 key (fun cfg hm => hav cfg (by simp [hm]))
      exact ⟨g1.trans f1, g2.trans f2⟩

lemma syncFold_write (hid : cidv.truthy = true) :
    ∀ cfgs (env : REnv), env.ready = true → env.behs = [] →
      List.Pairwise sepKeys cfgs →
      ∀ cfg ∈ cfgs, ∀ tv, getDeepValue settings cfg.tokenPath = some tv →
        tv.truthy = true →
        kvGet (syncFold cidv settings cfgs env).kv (secondaryKey cfg tv)
          = some (storeValue cidv) := by
  intro cfgs
  induction cfgs with
  | nil => intro env _ _ _ cfg hm; simp at hm
  | cons c cs ih =>
      intro env hr hb hpw cfg hm tv h ht
      obtain ⟨h1, h2, _⟩ := step_state cidv settings env hr hb hid c
      rw [syncFold_cons]
      rcases List.mem_cons.mp hm with he | hm'
      · subst he
        have hw := step_write cidv settings env hr hb hid cfg tv h ht
        have hfr := syncFold_frame cidv settings hid cs _ h1 h2 (secondaryKey cfg tv)
          (fun cfg' hm' tv' h' ht' => (List.pairwise_cons.mp hpw).1 cfg' hm' tv tv')
        exact hfr.1.trans hw
      · exact ih _ h1 h2 (List.pairwise_cons.mp hpw).2 cfg hm' tv h ht

lemma syncFold_len (hid : cidv.truthy = true) :
    ∀ cfgs (env : REnv), env.ready = true → env.behs = [] →
      List.Pairwise sepKeys cfgs →
      (∀ cfg ∈ cfgs, ∀ tv, getDeepValue settings cfg.tokenPath = some tv →
        tv.truthy = true → containsKey env.kv (secondaryKey cfg tv) = false) →
      (syncFold cidv settings cfgs env).kv.length
        = env.kv.length
          + (cfgs.filter
              (fun cfg => truthyOpt (getDeepValue settings cfg.tokenPath))).length := by
  intro cfgs
  induction cfgs with
  | nil => intro env _ _ _ _; simp [syncFold_nil]
  | cons c cs ih =>
      intro env hr hb hpw hfresh
      obtain ⟨h1, h2, _⟩ := step_state cidv settings env hr hb hid c
      rw [syncFold_cons]
      have hlen := step_len cidv settings env hr hb hid c
        (fun tv h ht => hfresh c (by simp) tv h ht)
      have hfresh' : ∀ cfg ∈ cs, ∀ tv, getDeepValue settings cfg.tokenPath = some tv →
          tv.truthy = true →
          containsKey (processAndSaveSecondaryIndex concreteRedis env cidv settings c).1.kv
            (secondaryKey cfg tv) = false := by
        intro cfg hm tv h ht
        have hfr := step_frame cidv settings env hr hb hid c (secondaryKey cfg tv)
          (fun tv' h' ht' => Ne.symm ((List.pairwise_cons.mp hpw).1 cfg hm tv' tv))
        exact hfr.2.trans (hfresh cfg (by simp [hm]) tv h ht)
      rw [ih _ h1 h2 (List.pairwise_cons.mp hpw).2 hfresh', hlen]
      by_cases hc : truthyOpt (getDeepValue settings c.tokenPath)
      · simp [List.filter, hc]
        omega
      · simp [List.filter, hc]

end StepFacts

lemma sep_of_heads (c c' : Indexer) (a b : Char)
    (h1 : c.redisKeyPrefix.data.head? = some a)
    (h2 : c'.redisKeyPrefix.data.head? = some b) (h : a ≠ b) : sepKeys c c' :=
  fun tv tv' => ne_of_head_ne _ _ a b (secondaryKey_head c tv a h1)
    (secondaryKey_head c' tv' b h2) h

/-- The three configured indexers write into disjoint key spaces. -/
lemma defaultIndexers_pairwise : List.Pairwise sepKeys defaultMetaIndexers := by
  rw [defaultMetaIndexers]
  refine List.Pairwise.cons ?_ (List.Pairwise.cons ?_ (List.Pairwise.cons ?_ List.Pairwise.nil))
  · intro c hm
    rcases List.mem_cons.mp hm with he | hm2
    · rw [he]
      exact sep_of_heads _ _ 'w' 'm' rfl rfl (by decide)
    · rcases List.mem_cons.mp hm2 with he | hm3
      · rw [he]
        exact sep_of_heads _ _ 'w' 'i' rfl rfl (by decide)
      · simp at hm3
  · intro c hm
    rcases List.mem_cons.mp hm with he | hm2
    · rw [he]
      exact sep_of_heads _ _ 'm' 'i' rfl rfl (by decide)
    · simp at hm2
  · intro c hm
    simp at hm

/-- The Primary Entry key is outside every indexer's key space. -/
lemma main_ne_secondary (x : String) (cfg : Indexer) (hm : cfg ∈ defaultMetaIndexers)
    (tv : JVal) : mainSettingsKey x ≠ secondaryKey cfg tv := by
  have hh : cfg.redisKeyPrefix.data.head? = some 'w'
      ∨ cfg.redisKeyPrefix.data.head? = some 'm'
      ∨ cfg.redisKeyPrefix.data.head? = some 'i' := by
    rw [defaultMetaIndexers] at hm
    rcases List.mem_cons.mp hm with he | hm2
    · rw [he]; exact Or.inl rfl
    · rcases List.mem_cons.mp hm2 with he | hm3
      · rw [he]; exact Or.inr (Or.inl rfl)
      · rcases List.mem_cons.mp hm3 with he | hm4
        · rw [he]; exact Or.inr (Or.inr rfl)
        · simp at hm4
  rcases hh with hh | hh | hh <;>
    exact ne_of_head_ne _ _ 'c' _ (mainKey_head x) (secondaryKey_head cfg tv _ hh)
      (by decide)

lemma main_avoids (settings : JVal) (x : String) :
    ∀ cfg ∈ defaultMetaIndexers, avoids settings cfg (mainSettingsKey x) :=
  fun cfg hm tv _ _ => main_ne_secondary x cfg hm tv

/-- C2: for a TenantRecord with truthy id and settings, against a live
store with a healthy transport and starting from an empty cache,
`saveSettingInRedis` succeeds, writes exactly one primary entry plus one
secondary entry per present token (so `1 + K` entries in total), the
primary entry holds the encoded settings blob, every present token's
secondary entry maps to the tenant id, and an indexer whose token is
absent leaves no entry in its key space and raises no error. -/
theorem saveFull_counts (cidv settings : JVal) (groups : List (String × String))
    (hid : cidv.truthy = true) (hset : settings.truthy = true) :
    (saveSettingInRedis concreteRedis ⟨true, [], groups, []⟩
        (some (.jobj [("_id", cidv), ("system_settings", settings)]))).2 = .ok () ∧
    (saveSettingInRedis concreteRedis ⟨true, [], groups, []⟩
        (some (.jobj [("_id", cidv), ("system_settings", settings)]))).1.kv.length
      = 1 + (defaultMetaIndexers.filter
          (fun cfg => truthyOpt (getDeepValue settings cfg.tokenPath))).length ∧
    kvGet (saveSettingInRedis concreteRedis ⟨true, [], groups, []⟩
        (some (.jobj [("_id", cidv), ("system_settings", settings)]))).1.kv
        (mainSettingsKey (jsToString cidv)) = some (storeValue settings) ∧
    (∀ cfg ∈ defaultMetaIndexers, ∀ tv, getDeepValue settings cfg.tokenPath = some tv →
      tv.truthy = true →
      kvGet (saveSettingInRedis concreteRedis ⟨true, [], groups, []⟩
          (some (.jobj [("_id", cidv), ("system_settings", settings)]))).1.kv
        (secondaryKey cfg tv) = some (storeValue cidv)) ∧
    (∀ cfg ∈ defaultMetaIndexers,
      truthyOpt (getDeepValue settings cfg.tokenPath) = false →
      ∀ tv, containsKey (saveSettingInRedis concreteRedis ⟨true, [], groups, []⟩
          (some (.jobj [("_id", cidv), ("system_settings", settings)]))).1.kv
        (secondaryKey cfg tv) = false) := by
  have hrun := saveSetting_concrete_run ⟨true, [], groups, []⟩ rfl rfl cidv settings hid hset
  have hfold : saveSettingInRedis concreteRedis ⟨true, [], groups, []⟩
      (some (.jobj [("_id", cidv), ("system_settings", settings)]))
      = (syncFold cidv settings defaultMetaIndexers
          ⟨true, kvSet [] (mainSettingsKey (jsToString cidv)) (storeValue settings),
            groups, []⟩, .ok ()) := hrun
  have henv1 : (⟨true, kvSet [] (mainSettingsKey (jsToString cidv)) (storeValue settings),
      groups, []⟩ : REnv).ready = true := rfl
  have henv2 : (⟨true, kvSet [] (mainSettingsKey (jsToString cidv)) (storeValue settings),
      groups, []⟩ : REnv).behs = [] := rfl
  refine ⟨by rw [hfold], ?_, ?_, ?_, ?_⟩
  · rw [hfold]
    have hfresh : ∀ cfg ∈ defaultMetaIndexers, ∀ tv,
        getDeepValue settings cfg.tokenPath = some tv → tv.truthy = true →
        containsKey (kvSet [] (mainSettingsKey (jsToString cidv)) (storeValue settings))
          (secondaryKey cfg tv) = false := by
      intro cfg hm tv h ht
      rw [containsKey_set_other _ _ _ _ (Ne.symm (main_ne_secondary _ cfg hm tv))]
      rfl
    rw [syncFold_len cidv settings hid defaultMetaIndexers _ henv1 henv2
      defaultIndexers_pairwise hfresh]
    simp [kvSet_length_new _ _ _ (by rfl : containsKey [] (mainSettingsKey (jsToString cidv)) = false)]
  · rw [hfold]
    have hfr := syncFold_frame cidv settings hid defaultMetaIndexers _ henv1 henv2
      (mainSettingsKey (jsToString cidv)) (main_avoids settings _)
    rw [hfr.1, kvGet_set_self]
  · intro cfg hm tv h ht
    rw [hfold]
    exact syncFold_write cidv settings hid defaultMetaIndexers _ henv1 henv2
      defaultIndexers_pairwise cfg hm tv h ht
  · intro cfg hm hfalse tv
    rw [hfold]
    have hav : ∀ cfg' ∈ defaultMetaIndexers, avoids settings cfg' (secondaryKey cfg tv) := by
      intro cfg' hm' tv' h' ht'
      by_cases hcc : cfg' = cfg
      · subst hcc
        rw [h'] at hfalse
        simp [truthyOpt, ht'] at hfalse
      · have hsym : Symmetric sepKeys := fun x y hxy tv1 tv2 => Ne.symm (hxy tv2 tv1)
        have hsep : sepKeys cfg' cfg :=
          List.Pairwise.forall hsym defaultIndexers_pairwise hm' hm hcc
        exact Ne.symm (hsep tv' tv)
    have hfr := syncFold_frame cidv settings hid defaultMetaIndexers _ henv1 henv2
      (secondaryKey cfg tv) hav
    rw [hfr.2, containsKey_set_other _ _ _ _
      (Ne.symm (main_ne_secondary _ cfg hm tv))]
    rfl

lemma anyRedisSet_ok_val (kv : List (String × String)) (r : List DIBeh)
    (k : String) (v : JVal) (hv : v.truthy = true) :
    anyRedis.set ⟨kv, DIBeh.ok :: r⟩ k (some v)
      = (⟨kvSet kv k (storeValue v), r⟩, .ok (some "OK")) := by
  cases v <;> simp_all [anyRedis, popDI, JVal.truthy]

lemma anyRedisSet_retNull (kv : List (String × String)) (r : List DIBeh)
    (k : String) (v : Option JVal) :
    anyRedis.set ⟨kv, DIBeh.retNull :: r⟩ k v = (⟨kv, r⟩, .ok none) := by
  simp [anyRedis, popDI]

lemma anyRedisSet_throw (kv : List (String × String)) (r : List DIBeh) (e : JsError)
    (k : String) (v : Option JVal) :
    anyRedis.set ⟨kv, DIBeh.throwE e :: r⟩ k v = (⟨kv, r⟩, .error e) := by
  simp [anyRedis, popDI]

/-- C1: partial-failure isolation of `saveSettingInRedis`.  For a valid
TenantRecord whose three tokens are present, and for every behaviour of
the three individual secondary-index writes against an arbitrary injected
redis implementation (success, nil-sentinel failure, or a thrown error),
the method itself still returns successfully, the already-written Primary
Entry survives untouched, and each indexer whose own write behaves
normally gets its Secondary Entry — a failing sibling never prevents it
or rolls anything back. -/
theorem saveFull_isolation (cidv settings t1 t2 t3 : JVal)
    (kv0 : List (String × String)) (b1 b2 b3 : DIBeh)
    (hid : cidv.truthy = true) (hset : settings.truthy = true)
    (h1 : getDeepValue settings ["meta_integrations", "whatsapp", "phoneNumberId"]
      = some t1)
    (ht1 : t1.truthy = true)
    (h2 : getDeepValue settings ["meta_integrations", "messenger", "pageId"] = some t2)
    (ht2 : t2.truthy = true)
    (h3 : getDeepValue settings
        ["meta_integrations", "instagram", "instagramBusinessAccountId"] = some t3)
    (ht3 : t3.truthy = true) :
    (saveSettingInRedis anyRedis ⟨kv0, [DIBeh.ok, b1, b2, b3]⟩
        (some (.jobj [("_id", cidv), ("system_settings", settings)]))).2 = .ok () ∧
    kvGet (saveSettingInRedis anyRedis ⟨kv0, [DIBeh.ok, b1, b2, b3]⟩
        (some (.jobj [("_id", cidv), ("system_settings", settings)]))).1.kv
      (mainSettingsKey (jsToString cidv)) = some (storeValue settings) ∧
    (b1 = DIBeh.ok →
      kvGet (saveSettingInRedis anyRedis ⟨kv0, [DIBeh.ok, b1, b2, b3]⟩
          (some (.jobj [("_id", cidv), ("system_settings", settings)]))).1.kv
        (secondaryKey ⟨"whatsapp", ["meta_integrations", "whatsapp", "phoneNumberId"],
          "wapPhoneNumberId"⟩ t1) = some (storeValue cidv)) ∧
    (b2 = DIBeh.ok →
      kvGet (saveSettingInRedis anyRedis ⟨kv0, [DIBeh.ok, b1, b2, b3]⟩
          (some (.jobj [("_id", cidv), ("system_settings", settings)]))).1.kv
        (secondaryKey ⟨"messenger", ["meta_integrations", "messenger", "pageId"],
          "msnPageId"⟩ t2) = some (storeValue cidv)) ∧
    (b3 = DIBeh.ok →
      kvGet (saveSettingInRedis anyRedis ⟨kv0, [DIBeh.ok, b1, b2, b3]⟩
          (some (.jobj [("_id", cidv), ("system_settings", settings)]))).1.kv
        (secondaryKey ⟨"instagram",
          ["meta_integrations", "instagram", "instagramBusinessAccountId"],
          "igmBusinessAccountId"⟩ t3) = some (storeValue cidv)) := by
  have hmw : mainSettingsKey (jsToString cidv)
      ≠ secondaryKey ⟨"whatsapp", ["meta_integrations", "whatsapp", "phoneNumberId"],
        "wapPhoneNumberId"⟩ t1 :=
    main_ne_secondary _ _ (by simp [defaultMetaIndexers]) t1
  have hmm2 : mainSettingsKey (jsToString cidv)
      ≠ secondaryKey ⟨"messenger", ["meta_integrations", "messenger", "pageId"],
        "msnPageId"⟩ t2 :=
    main_ne_secondary _ _ (by simp [defaultMetaIndexers]) t2
  have hmi : mainSettingsKey (jsToString cidv)
      ≠ secondaryKey ⟨"instagram",
        ["meta_integrations", "instagram", "instagramBusinessAccountId"],
        "igmBusinessAccountId"⟩ t3 :=
    main_ne_secondary _ _ (by simp [defaultMetaIndexers]) t3
  have hwm := sep_of_heads
    ⟨"whatsapp", ["meta_integrations", "whatsapp", "phoneNumberId"], "wapPhoneNumberId"⟩
    ⟨"messenger", ["meta_integrations", "messenger", "pageId"], "msnPageId"⟩
    'w' 'm' rfl rfl (by decide) t1 t2
  have hwi := sep_of_heads
    ⟨"whatsapp", ["meta_integrations", "whatsapp", "phoneNumberId"], "wapPhoneNumberId"⟩
    ⟨"instagram", ["meta_integrations", "instagram", "instagramBusinessAccountId"],
      "igmBusinessAccountId"⟩
    'w' 'i' rfl rfl (by decide) t1 t3
  have hmi2 := sep_of_heads
    ⟨"messenger", ["meta_integrations", "messenger", "pageId"], "msnPageId"⟩
    ⟨"instagram", ["meta_integrations", "instagram", "instagramBusinessAccountId"],
      "igmBusinessAccountId"⟩
    'm' 'i' rfl rfl (by decide) t2 t3
  have hmw' := Ne.symm hmw
  have hmm2' := Ne.symm hmm2
  have hmi' := Ne.symm hmi
  have hwm' := Ne.symm hwm
  have hwi' := Ne.symm hwi
  have hmi2' := Ne.symm hmi2
  cases b1 <;> cases b2 <;> cases b3 <;>
    simp [saveSettingInRedis, validCompany_pair, hid, hset, optIndex_pair_id,
      optIndex_pair_ss, saveMainCompanySettings,
      anyRedisSet_ok_val, anyRedisSet_retNull, anyRedisSet_throw,
      defaultMetaIndexers, processAndSaveSecondaryIndex, h1, ht1, h2, ht2, h3, ht3,
      kvGet_set_self, kvGet_set_other, hmw, hmm2, hmi, hwm, hwi, hmi2,
      hmw', hmm2', hmi', hwm', hwi', hmi2']

lemma setData_shape (env : REnv) (k : String) (v : Option JVal) :
    ∃ env' r, RedisService.setData env k v = (env', .ok r) := by
  rcases h : RedisService.setData env k v with ⟨env', r⟩
  cases r with
  | ok a => exact ⟨env', a, rfl⟩
  | error e =>
      have hok := setData_isOk env k v
      rw [h] at hok
      simp [exOk] at hok

lemma getData_shape (env : REnv) (k : String) :
    ∃ env' r, RedisService.getData env k = (env', .ok r) := by
  rcases h : RedisService.getData env k with ⟨env', r⟩
  cases r with
  | ok a => exact ⟨env', a, rfl⟩
  | error e =>
      have hok := getData_isOk env k
      rw [h] at hok
      simp [exOk] at hok

/-- Against the real client, a valid record always synchronizes without an
exception, whatever the connection state and transport behaviours. -/
lemma saveSetting_concrete_isOk (env : REnv) (company : Option JVal)
    (h : validCompany company = true) :
    ∃ env', saveSettingInRedis concreteRedis env company = (env', .ok ()) := by
  unfold saveSettingInRedis
  rw [h]
  simp only [Bool.not_true, Bool.false_eq_true, if_false]
  unfold saveMainCompanySettings
  obtain ⟨env1, r, hs⟩ := setData_shape env
    (mainSettingsKey (jsToString ((optIndex company "_id").getD .jnull)))
    (some ((optIndex company "system_settings").getD .jnull))
  rw [show concreteRedis.set = RedisService.setData from rfl, hs]
  exact ⟨_, rfl⟩

/-- C3: `saveSettingInRedis` raises exactly when the record is absent or
its id or settings blob is missing (falsy); in that case nothing has been
written — the state is returned untouched — and over every connection
state and transport behaviour this validation failure is the only failure
class the method lets escape. -/
theorem saveFull_validation_only (env : REnv) (company : Option JVal) :
    ((∃ e, (saveSettingInRedis concreteRedis env company).2 = .error e)
      ↔ validCompany company = false) ∧
    (validCompany company = false →
      saveSettingInRedis concreteRedis env company
        = (env, .error ⟨"Objeto `company` inválido o faltan `_id` o `system_settings`."⟩)) := by
  constructor
  · constructor
    · rintro ⟨e, he⟩
      cases hv : validCompany company with
      | false => rfl
      | true =>
          obtain ⟨env', hok⟩ := saveSetting_concrete_isOk env company hv
          rw [hok] at he
          cases he
    · intro hf
      refine ⟨⟨"Objeto `company` inválido o faltan `_id` o `system_settings`."⟩, ?_⟩
      unfold saveSettingInRedis
      rw [hf]
      simp
  · intro hf
    unfold saveSettingInRedis
    rw [hf]
    simp

/-- C3 witness: an absent record raises the validation error and leaves
the store untouched. -/
theorem saveFull_validation_only_witness :
    saveSettingInRedis concreteRedis ⟨true, [], [], []⟩ none
      = (⟨true, [], [], []⟩,
         .error ⟨"Objeto `company` inválido o faltan `_id` o `system_settings`."⟩) :=
  (saveFull_validation_only ⟨true, [], [], []⟩ none).2 rfl

/-- C10: `setData` with a null or an undefined value performs no store
operation and returns the null sentinel: the entire client state —
connection, every cached entry, and even the transport oracle — is left
unchanged, so an existing entry under the key survives and none is
created or deleted. -/
theorem setData_null_noop (env : REnv) (key : String) :
    RedisService.setData env key none = (env, .ok none) ∧
    RedisService.setData env key (some .jnull) = (env, .ok none) := by
  unfold RedisService.setData
  by_cases h : env.ready <;> simp [h]

/-- C8: `setupStreamGroup` is idempotent on a live connection with a
healthy transport: the first call creates the group and returns `true`,
and the repeated call with the same arguments hits the store's BUSYGROUP
answer, which is treated as success (`true`), not as an error. -/
theorem ensureGroup_idempotent (env : REnv) (sk gn : String)
    (hready : env.ready = true) (hbeh : env.behs = []) :
    ∃ env1 env2,
      RedisService.setupStreamGroup env sk gn = (env1, .ok true) ∧
      RedisService.setupStreamGroup env1 sk gn = (env2, .ok true) := by
  have hbg : RedisService.strIncludes
      "BUSYGROUP Consumer Group name already exists" "BUSYGROUP" = true := by decide
  unfold RedisService.setupStreamGroup
  by_cases hg : (sk, gn) ∈ env.groups
  · exact ⟨env, env, by simp [hready, hg, hbg], by simp [hready, hg, hbg]⟩
  · refine ⟨{ env with groups := (sk, gn) :: env.groups },
      { env with groups := (sk, gn) :: env.groups }, ?_, ?_⟩
    · simp [hready, hg, popBeh, hbeh]
    · simp [hready, hbg]

/-- C8 witness. -/
theorem ensureGroup_idempotent_witness :
    ∃ env1 env2,
      RedisService.setupStreamGroup ⟨true, [], [], []⟩ "orders" "workers"
        = (env1, .ok true) ∧
      RedisService.setupStreamGroup env1 "orders" "workers" = (env2, .ok true) :=
  ensureGroup_idempotent ⟨true, [], [], []⟩ "orders" "workers" rfl rfl

/-- C9: on a live connection a blocking read that times out returns the
empty list — a normal outcome — and `readFromStreamGroup` never throws for
any read outcome; a store-level failure instead yields the null sentinel,
which is a different result from the empty-list timeout. -/
theorem readGroup_timeout_empty :
    (∀ env sk gn cn, env.ready = true →
      RedisService.readFromStreamGroup env sk gn cn .timeout = .ok (some [])) ∧
    (∀ env sk gn cn e, env.ready = true →
      RedisService.readFromStreamGroup env sk gn cn (.err e) = .ok none) ∧
    (∀ env sk gn cn beh, exOk (RedisService.readFromStreamGroup env sk gn cn beh) = true) ∧
    (some ([] : List (String × JVal)) ≠ (none : Option (List (String × JVal)))) := by
  refine ⟨?_, ?_, ?_, by simp⟩
  · intro env sk gn cn h
    simp [RedisService.readFromStreamGroup, h]
  · intro env sk gn cn e h
    simp [RedisService.readFromStreamGroup, h]
  · intro env sk gn cn beh
    unfold RedisService.readFromStreamGroup
    by_cases h : env.ready
    · cases beh with
      | err e => simp [h, exOk]
      | timeout => simp [h, exOk]
      | deliver msgs =>
          simp only [h]
          cases hp : RedisService.parseStreamMsgs msgs <;> simp [hp, exOk]
    · simp [h, exOk]

/-- C9 witness. -/
theorem readGroup_timeout_empty_witness :
    RedisService.readFromStreamGroup ⟨true, [], [], []⟩ "orders" "workers" "w1"
        .timeout = .ok (some []) ∧
    RedisService.readFromStreamGroup ⟨true, [], [], []⟩ "orders" "workers" "w1"
        (.err ⟨"boom"⟩) = .ok none :=
  ⟨readGroup_timeout_empty.1 ⟨true, [], [], []⟩ "orders" "workers" "w1" rfl,
   readGroup_timeout_empty.2.1 ⟨true, [], [], []⟩ "orders" "workers" "w1" ⟨"boom"⟩ rfl⟩

lemma jsonParse_int (n : Int) : jsonParse (String.mk (intChars n)) = some (.jnum n) := by
  rw [jsonParse]
  have hP := (parse_enc_all (3 * (String.mk (intChars n)).length + 1)).1 (.jnum n) []
    (by simp [sizeV]) follow_nil
  rw [show encVal (.jnum n) = intChars n from rfl, List.append_nil] at hP
  rw [show (String.mk (intChars n)).data = intChars n from rfl, hP]
  simp [skipWs]

lemma setData_ok_notNull (env : REnv) (hready : env.ready = true)
    (hbeh : env.behs = []) (k : String) (v : JVal) (hv : v ≠ .jnull) :
    RedisService.setData env k (some v)
      = ({ env with kv := kvSet env.kv k (storeValue v) }, .ok (some "OK")) := by
  cases v <;> simp_all [RedisService.setData, popBeh]

/-- C6 counterexample: storing the *string* `"true"` and reading it back
yields the *boolean* `true` — the scalar encoding is ambiguous, so the
round-trip claim fails for strings whose content is valid JSON. -/
theorem kv_roundtrip_cex :
    (RedisService.setData ⟨true, [], [], []⟩ "k" (some (.jstr "true"))).2
      = .ok (some "OK") ∧
    (RedisService.getData
        (RedisService.setData ⟨true, [], [], []⟩ "k" (some (.jstr "true"))).1 "k").2
      = .ok (some (.jbool true)) ∧
    JVal.jbool true ≠ JVal.jstr "true" :=
  ⟨rfl, rfl, fun h => JVal.noConfusion h⟩

/-- C6 (amended): on a live connection with a healthy transport, after
`setData(key, v)` succeeds for a non-null `v`, `getData(key)` returns `v`
for every value except a string whose content is itself valid JSON — such
a string comes back as its decoded value instead of raw (objects and
arrays round-trip through `JSON.stringify`/`JSON.parse`; booleans and
integers survive their plain-string form; a string that fails JSON
decoding is returned raw). -/
theorem kv_roundtrip_amended (env : REnv) (hready : env.ready = true)
    (hbeh : env.behs = []) (key : String) (v : JVal) (hv : v ≠ .jnull) :
    (RedisService.getData (RedisService.setData env key (some v)).1 key).2
      = .ok (some (match v with
          | .jstr s =>
              match jsonParse s with
              | some w => w
              | none => .jstr s
          | _ => v)) := by
  rw [setData_ok_notNull env hready hbeh key v hv,
    getData_ready _ (by simpa using hready) (by simpa using hbeh) key]
  simp only [kvGet_set_self]
  cases v with
  | jnull => exact absurd rfl hv
  | jbool b =>
      cases b
      · rw [show storeValue (.jbool false) = "false" from rfl]
        rw [show jsonParse "false" = some (.jbool false) from rfl]
        rfl
      · rw [show storeValue (.jbool true) = "true" from rfl]
        rw [show jsonParse "true" = some (.jbool true) from rfl]
        rfl
  | jnum n =>
      rw [show storeValue (.jnum n) = String.mk (intChars n) from rfl, jsonParse_int]
      rfl
  | jstr s =>
      rw [show storeValue (.jstr s) = s from rfl]
      cases hp : jsonParse s <;> simp [hp]
  | jarr xs =>
      rw [show storeValue (.jarr xs) = jsonStringify (.jarr xs) from rfl,
        jsonParse_stringify]
      rfl
  | jobj kvs =>
      rw [show storeValue (.jobj kvs) = jsonStringify (.jobj kvs) from rfl,
        jsonParse_stringify]
      rfl

/-- C6 witness (for the amended theorem): a concrete object value
round-trips intact. -/
theorem kv_roundtrip_amended_witness :
    (RedisService.getData
        (RedisService.setData ⟨true, [], [], []⟩ "k"
          (some (.jobj [("a", .jnum 1)]))).1 "k").2
      = .ok (some (.jobj [("a", .jnum 1)])) :=
  kv_roundtrip_amended ⟨true, [], [], []⟩ rfl rfl "k" (.jobj [("a", .jnum 1)])
    (fun h => JVal.noConfusion h)

lemma validCompany_doc (c : CompanyDoc) (hid : c.id ≠ "")
    (hss : truthyOpt c.system_settings = true) :
    validCompany (some (docToJVal c)) = true := by
  rcases hsome : c.system_settings with _ | ss
  · rw [hsome] at hss
    simp [truthyOpt] at hss
  · rw [hsome] at hss
    simp only [truthyOpt] at hss
    cases hn : c.name <;>
      simp [validCompany, docToJVal, truthyOpt, optIndex, JVal.index, JVal.truthy,
        hsome, hn, hid, hss] <;>
      exact hss

/-- C7: no cache failure ever surfaces as an exception.  `setData`,
`getData` and `delData` always return normally (never throw), returning
the null sentinel whenever no live connection exists; consequently, for
every connection state and every transport behaviour, `getSystemSettings`
and `getIdByIntegration` never raise on account of the cache — with
non-empty arguments they always return normally. -/
theorem cache_failures_never_raise :
    (∀ env k v, exOk (RedisService.setData env k v).2 = true) ∧
    (∀ env k, exOk (RedisService.getData env k).2 = true) ∧
    (∀ env ks, exOk (RedisService.delData env ks).2 = true) ∧
    (∀ env k v, env.ready = false → (RedisService.setData env k v).2 = .ok none) ∧
    (∀ env k, env.ready = false → (RedisService.getData env k).2 = .ok none) ∧
    (∀ env ks, env.ready = false → (RedisService.delData env ks).2 = .ok none) ∧
    (∀ env db cid, cid ≠ "" →
      exOk (getSystemSettings concreteRedis env db cid).2.2 = true) ∧
    (∀ env db ch av, ch ≠ "" → av ≠ "" →
      exOk (getIdByIntegration concreteRedis env db ch av).2.2.1 = true) := by
  refine ⟨setData_isOk, getData_isOk, delData_isOk, ?_, ?_, ?_, ?_, ?_⟩
  · intro env k v h
    simp [RedisService.setData, h]
  · intro env k h
    simp [RedisService.getData, h]
  · intro env ks h
    simp [RedisService.delData, h]
  · intro env db cid hcid
    unfold getSystemSettings
    rw [if_neg hcid]
    obtain ⟨env1, r, hg⟩ := getData_shape env (mainSettingsKey cid)
    rw [show concreteRedis.get = RedisService.getData from rfl, hg]
    by_cases ht : truthyOpt r
    · simp [ht, exOk]
    · simp only [ht, Bool.false_eq_true, if_false]
      rcases hf : findOneActiveById db cid with ⟨db1, copt⟩
      cases copt with
      | none => simp [exOk]
      | some c =>
          by_cases hss : truthyOpt c.system_settings
          · simp only [hss, Bool.not_true, Bool.false_eq_true, if_false]
            have hcidq : c.id = cid := by
              have := List.find?_some (by
                have : db.companies.find? (fun d => d.id == cid && d.active) = some c := by
                  have hud : findOneActiveById db cid
                      = ({ db with reads := db.reads + 1 },
                         db.companies.find? (fun d => d.id == cid && d.active)) := rfl
                  rw [hud] at hf
                  exact congrArg Prod.snd hf
                exact this)
              simp at this
              exact this.1
            have hvc := validCompany_doc c (by rw [hcidq]; exact hcid) hss
            obtain ⟨env2, hok⟩ := saveSetting_concrete_isOk env1 (some (docToJVal c)) hvc
            rw [hok]
            simp [exOk]
          · simp [hss, exOk]
  · intro env db ch av hch hav
    unfold getIdByIntegration
    rw [if_neg (by simp [hch, hav])]
    cases hfind : defaultMetaIndexers.find? (fun i => i.platformName == ch) with
    | none => simp [exOk]
    | some cfg =>
        obtain ⟨env1, r, hg⟩ := getData_shape env (cfg.redisKeyPrefix ++ ":" ++ av)
        by_cases ht : truthyOpt r
        · simp [show concreteRedis.get = RedisService.getData from rfl, hg, ht, exOk]
        · rcases hp : findOneActiveByPath db cfg.tokenPath av with ⟨db1, copt⟩
          cases copt <;>
            simp [show concreteRedis.get = RedisService.getData from rfl, hg, ht, hp,
              exOk]

/-- C7 witness: with the connection down, a read goes to the repository
fallback and returns normally. -/
theorem cache_failures_never_raise_witness :
    exOk (getSystemSettings concreteRedis ⟨false, [], [], []⟩ ⟨[], 0⟩ "c1").2.2
      = true :=
  cache_failures_never_raise.2.2.2.2.2.2.1 ⟨false, [], [], []⟩ ⟨[], 0⟩ "c1"
    (by decide)

lemma optIndex_doc_id (c : CompanyDoc) :
    optIndex (some (docToJVal c)) "_id" = some (.jstr c.id) := by
  cases hn : c.name <;> cases hs : c.system_settings <;>
    simp [docToJVal, optIndex, JVal.index, hn, hs]

lemma optIndex_doc_ss (c : CompanyDoc) (ss : JVal) (h : c.system_settings = some ss) :
    optIndex (some (docToJVal c)) "system_settings" = some ss := by
  cases hn : c.name <;> simp [docToJVal, optIndex, JVal.index, hn, h]

/-- `saveSettingInRedis` on a live connection with a healthy transport,
for an arbitrary valid record shape. -/
lemma saveSetting_concrete_run2 (env : REnv) (hready : env.ready = true)
    (hbeh : env.behs = []) (company : Option JVal) (cidv settings : JVal)
    (hidx : optIndex company "_id" = some cidv)
    (hssx : optIndex company "system_settings" = some settings)
    (hv : validCompany company = true) (hsett : settings.truthy = true) :
    saveSettingInRedis concreteRedis env company
      = (syncFold cidv settings defaultMetaIndexers
          { env with kv :=
              (kvSet env.kv (mainSettingsKey (jsToString cidv)) (storeValue settings)) },
         .ok ()) := by
  unfold saveSettingInRedis
  rw [hv]
  simp only [Bool.not_true, Bool.false_eq_true, if_false, hidx, hssx, Option.getD_some]
  unfold saveMainCompanySettings
  rw [show concreteRedis.set = RedisService.setData from rfl,
    setData_ok_truthy env hready hbeh _ settings hsett]
  rfl

/-- C4: `getSystemSettings` is idempotent under cache availability.  On a
cache hit (the Primary Entry holds a truthily-decoding value) it returns
the cached settings with the repository untouched; and for a tenant whose
record carries a settings map, two successive calls starting from an
empty cache return identical settings while only the first call performs
a repository read. -/
theorem readSettings_idempotent (db : Db) (cid : String) (hcid : cid ≠ "")
    (c : CompanyDoc)
    (hfind : db.companies.find? (fun d => d.id == cid && d.active) = some c)
    (fields : List (String × JVal)) (hss : c.system_settings = some (.jobj fields))
    (groups : List (String × String)) :
    (∀ env : REnv, env.ready = true → env.behs = [] →
      ∀ s v, kvGet env.kv (mainSettingsKey cid) = some s → jsonParse s = some v →
        v.truthy = true →
        getSystemSettings concreteRedis env db cid = (env, db, .ok (some v))) ∧
    (∃ env1 : REnv,
      getSystemSettings concreteRedis ⟨true, [], groups, []⟩ db cid
        = (env1, { db with reads := db.reads + 1 }, .ok (some (.jobj fields))) ∧
      getSystemSettings concreteRedis env1 { db with reads := db.reads + 1 } cid
        = (env1, { db with reads := db.reads + 1 }, .ok (some (.jobj fields)))) := by
  have hcq : c.id = cid ∧ c.active = true := by
    have := List.find?_some hfind
    simpa using this
  constructor
  · intro env hr hb s v hkv hp ht
    unfold getSystemSettings
    rw [if_neg hcid, show concreteRedis.get = RedisService.getData from rfl,
      getData_ready env hr hb]
    simp [hkv, hp, truthyOpt, ht]
  · have hvc : validCompany (some (docToJVal c)) :=
      validCompany_doc c (by rw [hcq.1]; exact hcid) (by rw [hss]; rfl)
    have hrun := saveSetting_concrete_run2 ⟨true, [], groups, []⟩ rfl rfl
      (some (docToJVal c)) (.jstr c.id) (.jobj fields)
      (optIndex_doc_id c) (optIndex_doc_ss c _ hss) hvc rfl
    have hjs : jsToString (JVal.jstr c.id) = cid := by
      rw [show jsToString (JVal.jstr c.id) = c.id from rfl, hcq.1]
    rw [hjs] at hrun
    have henv1r : ((⟨true, kvSet [] (mainSettingsKey cid) (storeValue (.jobj fields)),
        groups, []⟩ : REnv)).ready = true := rfl
    have henv1b : ((⟨true, kvSet [] (mainSettingsKey cid) (storeValue (.jobj fields)),
        groups, []⟩ : REnv)).behs = [] := rfl
    have hidt : (JVal.jstr c.id).truthy = true := by
      simp [JVal.truthy, hcq.1]
      exact hcid
    obtain ⟨hfr1, _⟩ := syncFold_frame (JVal.jstr c.id) (.jobj fields) hidt
      defaultMetaIndexers _ henv1r henv1b (mainSettingsKey cid)
      (main_avoids (.jobj fields) cid)
    obtain ⟨hst1, hst2, _⟩ := syncFold_state (JVal.jstr c.id) (.jobj fields) hidt
      defaultMetaIndexers _ henv1r henv1b
    refine ⟨syncFold (JVal.jstr c.id) (.jobj fields) defaultMetaIndexers
      ⟨true, kvSet [] (mainSettingsKey cid) (storeValue (.jobj fields)), groups, []⟩,
      ?_, ?_⟩
    · unfold getSystemSettings
      rw [if_neg hcid, show concreteRedis.get = RedisService.getData from rfl,
        getData_ready ⟨true, [], groups, []⟩ rfl rfl]
      simp only [kvGet_nil, truthyOpt, Bool.false_eq_true, if_false]
      have hfo : findOneActiveById db cid
          = ({ db with reads := db.reads + 1 }, some c) := by
        unfold findOneActiveById
        rw [hfind]
      rw [hfo]
      simp only [hss, truthyOpt, JVal.truthy, Bool.not_true, Bool.false_eq_true,
        if_false]
      rw [hrun]
    · unfold getSystemSettings
      rw [if_neg hcid, show concreteRedis.get = RedisService.getData from rfl,
        getData_ready _ hst1 hst2]
      rw [hfr1, kvGet_set_self]
      have hdec : jsonParse (storeValue (JVal.jobj fields)) = some (.jobj fields) := by
        rw [show storeValue (JVal.jobj fields) = jsonStringify (.jobj fields) from rfl,
          jsonParse_stringify]
      simp [hdec, truthyOpt, JVal.truthy]

/-- C4 witness: the concrete scenario of the spec — a tenant with a
WhatsApp token — read twice from an empty cache. -/
theorem readSettings_idempotent_witness :
    ∃ env1 : REnv,
      getSystemSettings concreteRedis ⟨true, [], [], []⟩
          ⟨[⟨"c1", none,
             some (.jobj [("meta_integrations",
               .jobj [("whatsapp", .jobj [("phoneNumberId", .jstr "555")])])]),
             true⟩], 0⟩ "c1"
        = (env1, ⟨[⟨"c1", none,
             some (.jobj [("meta_integrations",
               .jobj [("whatsapp", .jobj [("phoneNumberId", .jstr "555")])])]),
             true⟩], 1⟩,
           .ok (some (.jobj [("meta_integrations",
             .jobj [("whatsapp", .jobj [("phoneNumberId", .jstr "555")])])]))) ∧
      getSystemSettings concreteRedis env1
          ⟨[⟨"c1", none,
             some (.jobj [("meta_integrations",
               .jobj [("whatsapp", .jobj [("phoneNumberId", .jstr "555")])])]),
             true⟩], 1⟩ "c1"
        = (env1, ⟨[⟨"c1", none,
             some (.jobj [("meta_integrations",
               .jobj [("whatsapp", .jobj [("phoneNumberId", .jstr "555")])])]),
             true⟩], 1⟩,
           .ok (some (.jobj [("meta_integrations",
             .jobj [("whatsapp", .jobj [("phoneNumberId", .jstr "555")])])]))) :=
  (readSettings_idempotent
    ⟨[⟨"c1", none,
       some (.jobj [("meta_integrations",
         .jobj [("whatsapp", .jobj [("phoneNumberId", .jstr "555")])])]),
       true⟩], 0⟩
    "c1" (by decide) _ rfl _ rfl []).2

/-- C5: `getIdByIntegration` — (i) an unknown (non-empty) platform
returns null without raising and without touching the repository; (ii) a
secondary-index cache hit returns the cached tenant id with zero
repository reads; (iii) a cache miss returns exactly the tenant id the
repository lookup by the nested token-path field yields (null when no
active tenant matches), performing one repository read, and hands back
the repopulation task for the found tenant; (iv) the value returned to
the caller is computed before the background task runs, so the task —
including its failure — never changes it. -/
theorem resolveTenantByToken_spec :
    (∀ (env : REnv) db ch av, ch ≠ "" → av ≠ "" →
      defaultMetaIndexers.find? (fun i => i.platformName == ch) = none →
      getIdByIntegration concreteRedis env db ch av = (env, db, .ok none, none)) ∧
    (∀ (env : REnv) db ch av cfg, ch ≠ "" → av ≠ "" →
      env.ready = true → env.behs = [] →
      defaultMetaIndexers.find? (fun i => i.platformName == ch) = some cfg →
      ∀ s v, kvGet env.kv (cfg.redisKeyPrefix ++ ":" ++ av) = some s →
        jsonParse s = some v → v.truthy = true →
        getIdByIntegration concreteRedis env db ch av = (env, db, .ok (some v), none)) ∧
    (∀ (env : REnv) db ch av cfg, ch ≠ "" → av ≠ "" →
      env.ready = true → env.behs = [] →
      defaultMetaIndexers.find? (fun i => i.platformName == ch) = some cfg →
      kvGet env.kv (cfg.redisKeyPrefix ++ ":" ++ av) = none →
      getIdByIntegration concreteRedis env db ch av
        = (env, { db with reads := db.reads + 1 },
           .ok (match (findOneActiveByPath db cfg.tokenPath av).2 with
                | some c => some (.jstr c.id)
                | none => none),
           (findOneActiveByPath db cfg.tokenPath av).2.map (fun c => (c, ch)))) ∧
    (∀ (env : REnv) db ch av,
      (getIdByIntegrationAndSync concreteRedis env db ch av).2.2
        = (getIdByIntegration concreteRedis env db ch av).2.2.1) := by
  refine ⟨?_, ?_, ?_, ?_⟩
  · intro env db ch av hch hav hfind
    unfold getIdByIntegration
    rw [if_neg (by simp [hch, hav])]
    simp [hfind]
  · intro env db ch av cfg hch hav hr hb hfind s v hkv hp ht
    unfold getIdByIntegration
    rw [if_neg (by simp [hch, hav])]
    simp only [hfind]
    rw [show concreteRedis.get = RedisService.getData from rfl, getData_ready env hr hb]
    simp [hkv, hp, truthyOpt, ht]
  · intro env db ch av cfg hch hav hr hb hfind hkv
    unfold getIdByIntegration
    rw [if_neg (by simp [hch, hav])]
    simp only [hfind]
    rw [show concreteRedis.get = RedisService.getData from rfl, getData_ready env hr hb]
    simp only [hkv, truthyOpt, Bool.false_eq_true, if_false]
    rcases hfp : findOneActiveByPath db cfg.tokenPath av with ⟨db1, copt⟩
    have hdb1 : db1 = { db with reads := db.reads + 1 } := by
      have h1 := congrArg Prod.fst hfp
      simp [findOneActiveByPath] at h1
      exact h1.symm
    cases copt with
    | none => simp [hfp, hdb1]
    | some c => simp [hfp, hdb1]
  · intro env db ch av
    rcases h : getIdByIntegration concreteRedis env db ch av with ⟨s1, db1, r, task⟩
    simp [getIdByIntegrationAndSync, h]

/-- C5 witness: the spec scenario — a cache hit on `wapPhoneNumberId:555`
returns `"c1"` with no repository access. -/
theorem resolveTenantByToken_spec_witness :
    getIdByIntegration concreteRedis
        ⟨true, [("wapPhoneNumberId:555", "\"c1\"")], [], []⟩ ⟨[], 0⟩
        "whatsapp" "555"
      = (⟨true, [("wapPhoneNumberId:555", "\"c1\"")], [], []⟩, ⟨[], 0⟩,
         .ok (some (.jstr "c1")), none) :=
  resolveTenantByToken_spec.2.1
    ⟨true, [("wapPhoneNumberId:555", "\"c1\"")], [], []⟩ ⟨[], 0⟩
    "whatsapp" "555"
    ⟨"whatsapp", ["meta_integrations", "whatsapp", "phoneNumberId"], "wapPhoneNumberId"⟩
    (by decide) (by decide) rfl rfl (by simp [defaultMetaIndexers]) "\"c1\""
    (.jstr "c1") rfl rfl rfl

/-- C1 witness: with the WhatsApp write throwing and the other two
succeeding, `saveSettingInRedis` still succeeds and both surviving
indexers get their entries. -/
theorem saveFull_isolation_witness :
    (saveSettingInRedis anyRedis
        ⟨[], [DIBeh.ok, DIBeh.throwE ⟨"boom"⟩, DIBeh.ok, DIBeh.ok]⟩
        (some (.jobj [("_id", .jstr "c1"),
          ("system_settings", .jobj [("meta_integrations", .jobj
            [("whatsapp", .jobj [("phoneNumberId", .jstr "555")]),
             ("messenger", .jobj [("pageId", .jstr "777")]),
             ("instagram", .jobj [("instagramBusinessAccountId", .jstr "888")])])])]))).2
      = .ok () ∧
    kvGet (saveSettingInRedis anyRedis
        ⟨[], [DIBeh.ok, DIBeh.throwE ⟨"boom"⟩, DIBeh.ok, DIBeh.ok]⟩
        (some (.jobj [("_id", .jstr "c1"),
          ("system_settings", .jobj [("meta_integrations", .jobj
            [("whatsapp", .jobj [("phoneNumberId", .jstr "555")]),
             ("messenger", .jobj [("pageId", .jstr "777")]),
             ("instagram", .jobj [("instagramBusinessAccountId", .jstr "888")])])])]))).1.kv
        (mainSettingsKey (jsToString (.jstr "c1")))
      = some (storeValue (.jobj [("meta_integrations", .jobj
          [("whatsapp", .jobj [("phoneNumberId", .jstr "555")]),
           ("messenger", .jobj [("pageId", .jstr "777")]),
           ("instagram", .jobj [("instagramBusinessAccountId", .jstr "888")])])])) ∧
    kvGet (saveSettingInRedis anyRedis
        ⟨[], [DIBeh.ok, DIBeh.throwE ⟨"boom"⟩, DIBeh.ok, DIBeh.ok]⟩
        (some (.jobj [("_id", .jstr "c1"),
          ("system_settings", .jobj [("meta_integrations", .jobj
            [("whatsapp", .jobj [("phoneNumberId", .jstr "555")]),
             ("messenger", .jobj [("pageId", .jstr "777")]),
             ("instagram", .jobj [("instagramBusinessAccountId", .jstr "888")])])])]))).1.kv
        (secondaryKey ⟨"messenger", ["meta_integrations", "messenger", "pageId"],
          "msnPageId"⟩ (.jstr "777"))
      = some (storeValue (.jstr "c1")) := by
  have h := saveFull_isolation (.jstr "c1")
    (.jobj [("meta_integrations", .jobj
      [("whatsapp", .jobj [("phoneNumberId", .jstr "555")]),
       ("messenger", .jobj [("pageId", .jstr "777")]),
       ("instagram", .jobj [("instagramBusinessAccountId", .jstr "888")])])])
    (.jstr "555") (.jstr "777") (.jstr "888") []
    (DIBeh.throwE ⟨"boom"⟩) DIBeh.ok DIBeh.ok
    rfl rfl rfl rfl rfl rfl rfl rfl
  exact ⟨h.1, h.2.1, h.2.2.2.1 rfl⟩

/-- C2 witness: a tenant with only the WhatsApp token, synchronized into
an empty cache — one primary entry, the WhatsApp secondary entry, and no
error. -/
theorem saveFull_counts_witness :
    (saveSettingInRedis concreteRedis ⟨true, [], [], []⟩
        (some (.jobj [("_id", .jstr "c1"),
          ("system_settings", .jobj [("meta_integrations", .jobj
            [("whatsapp", .jobj [("phoneNumberId", .jstr "555")])])])]))).2 = .ok () ∧
    (saveSettingInRedis concreteRedis ⟨true, [], [], []⟩
        (some (.jobj [("_id", .jstr "c1"),
          ("system_settings", .jobj [("meta_integrations", .jobj
            [("whatsapp", .jobj [("phoneNumberId", .jstr "555")])])])]))).1.kv.length
      = 1 + (defaultMetaIndexers.filter
          (fun cfg => truthyOpt (getDeepValue
            (.jobj [("meta_integrations", .jobj
              [("whatsapp", .jobj [("phoneNumberId", .jstr "555")])])])
            cfg.tokenPath))).length ∧
    kvGet (saveSettingInRedis concreteRedis ⟨true, [], [], []⟩
        (some (.jobj [("_id", .jstr "c1"),
          ("system_settings", .jobj [("meta_integrations", .jobj
            [("whatsapp", .jobj [("phoneNumberId", .jstr "555")])])])]))).1.kv
        (mainSettingsKey (jsToString (.jstr "c1")))
      = some (storeValue (.jobj [("meta_integrations", .jobj
          [("whatsapp", .jobj [("phoneNumberId", .jstr "555")])])])) := by
  have h := saveFull_counts (.jstr "c1")
    (.jobj [("meta_integrations", .jobj
      [("whatsapp", .jobj [("phoneNumberId", .jstr "555")])])])
    [] rfl rfl
  exact ⟨h.1, h.2.1, h.2.2.1⟩

end Thoth
